import Mathlib

set_option linter.unusedVariables false
set_option maxRecDepth 40000

/-!
Verification model of `libmtd_legacy.c` (pre-sysfs MTD support).

The C code is embedded shallowly:
* the `/proc/mtd` buffer is a `List Char` together with an explicit count
  `data_size` of valid bytes (the allocation may be longer than the valid data,
  exactly as in the C code, where `read` fills only a prefix of the 4096-byte
  allocation);
* `ioctl`/`stat`/`open` results are inputs, collected in `SysEnv`;
* each C `while` loop takes explicit fuel and returns `none` when the fuel is
  exhausted before the loop exits, so non-termination of a loop shows up as
  `= none` for every fuel;
* freeing of the scan buffer and closing of file descriptors are tracked as
  booleans in the results.

Numeric `sscanf` conversions are modelled unbounded: no claim below depends on
C `int` overflow inside `sscanf` (which the C standard leaves undefined).
-/

/-- ASCII NUL, the C string terminator. -/
def NUL : Char := Char.ofNat 0

/-- C `isspace` (ASCII): space, tab, newline, vertical tab, form feed, carriage return. -/
def isSpaceC (c : Char) : Bool := c.toNat = 32 || (9 ≤ c.toNat && c.toNat ≤ 13)

/-- C `isdigit` (ASCII). -/
def isDigitC (c : Char) : Bool := 48 ≤ c.toNat && c.toNat ≤ 57

/-- C `isxdigit` (ASCII). -/
def isHexC (c : Char) : Bool :=
  (48 ≤ c.toNat && c.toNat ≤ 57) || (97 ≤ c.toNat && c.toNat ≤ 102) ||
    (65 ≤ c.toNat && c.toNat ≤ 70)

/-- Value of a decimal digit character. -/
def digitVal (c : Char) : Nat := c.toNat - 48

/-- Value of a hexadecimal digit character. -/
def hexDigitVal (c : Char) : Nat :=
  if 97 ≤ c.toNat then c.toNat - 87
  else if 65 ≤ c.toNat then c.toNat - 55
  else c.toNat - 48

/-- Accumulate the value of a digit string in the given base, most significant first. -/
def numVal (base : Nat) (dval : Char → Nat) (l : List Char) : Nat :=
  l.foldl (fun a c => a * base + dval c) 0

/-- Value of a decimal digit string. -/
def decVal (l : List Char) : Nat := numVal 10 digitVal l

/-- Value of a hexadecimal digit string. -/
def hexVal (l : List Char) : Nat := numVal 16 hexDigitVal l

/-- The part of a buffer a C string function sees: everything before the first NUL. -/
def cstr (l : List Char) : List Char := l.takeWhile (fun c => ¬ c = NUL)

/-- C `memchr(l, c, n)`: index of the first occurrence of `c` among the first
`n` elements of `l`, if any. -/
def memchr : List Char → Char → Nat → Option Nat
  | _, _, 0 => none
  | [], _, _ + 1 => none
  | x :: xs, c, n + 1 =>
    if x = c then some 0 else (memchr xs c n).map (· + 1)

/-- Match the literal characters `lit` at the head of `s`; on success return the rest. -/
def matchLit : List Char → List Char → Option (List Char)
  | [], s => some s
  | _ :: _, [] => none
  | c :: cs, d :: ds => if c = d then matchLit cs ds else none

/-- One `scanf` numeric conversion: skip whitespace, accept an optional sign,
then a nonempty run of digits recognised by `isD`, valued by `val`.
Returns the value and the unconsumed rest, or `none` on matching failure. -/
def scanNum (isD : Char → Bool) (val : List Char → Nat) (s : List Char) :
    Option (Int × List Char) :=
  match s.dropWhile isSpaceC with
  | [] => none
  | c :: r =>
    if c = '-' then
      let d := r.takeWhile isD
      if d = [] then none else some (-(val d : Int), r.dropWhile isD)
    else if c = '+' then
      let d := r.takeWhile isD
      if d = [] then none else some ((val d : Int), r.dropWhile isD)
    else
      let d := (c :: r).takeWhile isD
      if d = [] then none else some ((val d : Int), (c :: r).dropWhile isD)

/-- Model of `sscanf(s, "mtd%d: %llx %x", &mtd_num, &size, &eb_size)` applied to
the C string `s`: the literal `mtd`, a decimal conversion, the literal `:`, a
whitespace directive, a hex conversion, a whitespace directive, a hex
conversion.  Returns the list of successfully converted values in order (the C
return value is its length). -/
def sscanf_mtd (s : List Char) : List Int :=
  match matchLit ('m' :: 't' :: 'd' :: []) s with
  | none => []
  | some s1 =>
    match scanNum isDigitC decVal s1 with
    | none => []
    | some (a, s2) =>
      match s2 with
      | ':' :: s3 =>
        match scanNum isHexC hexVal (s3.dropWhile isSpaceC) with
        | none => [a]
        | some (b, s4) =>
          match scanNum isHexC hexVal (s4.dropWhile isSpaceC) with
          | none => [a, b]
          | some (c, _) => [a, b, c]
      | _ => [a]

/-- Header line of `/proc/mtd` (`PROC_MTD_FIRST`). -/
def PROC_MTD_FIRST : List Char := ("dev:    size   erasesize  name\n").data

/-- `PROC_MTD_FIRST_LEN`. -/
def PROC_MTD_FIRST_LEN : Nat := PROC_MTD_FIRST.length

/-- Modelled from the spec: `MTD_NAME_MAX`, the maximum device-name length, comes
from `libmtd.h`, which is not under `src/`; the spec fixes only that such a fixed
maximum exists ("bounded-length text, at most a fixed maximum").  The proofs below
do not depend on its numeric value. -/
def MTD_NAME_MAX : Nat := 127

/-- `MTD_DEV_MAJOR` from the source. -/
def MTD_DEV_MAJOR : Nat := 90

/-- C `INT_MAX`. -/
def INT_MAX : Int := 2147483647

/-- `struct proc_parse_info`: the record-at-a-time scan state over `/proc/mtd`.
`buf` is the whole allocation, `data_size` the number of valid bytes in it,
`next` the offset of the next unparsed byte. -/
structure ProcParseInfo where
  mtd_num : Int
  size : Int
  eb_size : Int
  name : List Char
  buf : List Char
  data_size : Nat
  next : Nat
deriving DecidableEq

/-- Outcome of one `proc_parse_next` step, before the struct writes are applied:
`eof` is the `return 0` path (which frees the buffer), `err` a `return errmsg(...)`
path carrying the values `sscanf` converted and the name if `memcpy` already ran,
`ok` the `return 1` path. -/
inductive CoreResult where
  | eof : CoreResult
  | err : List Int → Option (List Char) → CoreResult
  | ok : Int → Int → Int → List Char → Nat → CoreResult
deriving DecidableEq

/-- The pure scanning core of `proc_parse_next`, a function of the buffer, the
valid length, and the current offset only.  Mirrors the C body line by line:
the `sscanf` pattern match (on the NUL-terminated string at the cursor), the
two bounded quote searches, the name-length check, the `memcpy`, and the
newline-terminator check — which reads the byte at offset `pos1 + 1`, one past
the closing quote. -/
def parse_core (buf : List Char) (ds pos0 : Nat) : CoreResult :=
  if ds ≤ pos0 then .eof
  else
    match sscanf_mtd (cstr (buf.drop pos0)) with
    | [a, b, c] =>
      match memchr (buf.drop pos0) '"' (ds - pos0) with
      | none => .err [a, b, c] none
      | some i =>
        let p := pos0 + i + 1
        if ds ≤ p then .err [a, b, c] none
        else
          match memchr (buf.drop p) '"' (ds - p) with
          | none => .err [a, b, c] none
          | some j =>
            let pos1 := p + j
            if ds ≤ pos1 then .err [a, b, c] none
            else if MTD_NAME_MAX < j then .err [a, b, c] none
            else
              let nm := (buf.drop p).take j
              if (buf.drop (pos1 + 1)).head? = some '\n' then .ok a b c nm (pos1 + 2)
              else .err [a, b, c] (some nm)
    | vals => .err vals none

/-- Apply the struct writes a (partially) successful `sscanf` and a possible
`memcpy` perform on `struct proc_parse_info`. -/
def applyUpd (pi : ProcParseInfo) (vals : List Int) (nm : Option (List Char)) :
    ProcParseInfo :=
  let pi1 :=
    match vals with
    | [] => pi
    | [a] => { pi with mtd_num := a }
    | [a, b] => { pi with mtd_num := a, size := b }
    | a :: b :: c :: _ => { pi with mtd_num := a, size := b, eb_size := c }
  match nm with
  | none => pi1
  | some n => { pi1 with name := n }

/-- Result of `proc_parse_next`: `eof` models `return 0` (buffer freed),
`ok` models `return 1` with the updated struct, `err` models `return -1`
(an `errmsg` path) with the partially updated struct. -/
inductive ParseStep where
  | eof : ParseStep
  | ok : ProcParseInfo → ParseStep
  | err : ProcParseInfo → ParseStep
deriving DecidableEq

/-- `proc_parse_next`. -/
def proc_parse_next (pi : ProcParseInfo) : ParseStep :=
  match parse_core pi.buf pi.data_size pi.next with
  | .eof => .eof
  | .err vals nm => .err (applyUpd pi vals nm)
  | .ok a b c nm nx =>
    .ok { pi with mtd_num := a, size := b, eb_size := c, name := nm, next := nx }

/-- `proc_parse_start`: header validation and cursor initialisation.  `g` holds
the (uninitialised) values of the scalar fields of the stack struct, `alloc` the
contents of the 4096-byte allocation after `read`, `ds` the number of bytes
`read` returned.  `none` models the `out_free` failure path (buffer freed). -/
def proc_parse_start (g : ProcParseInfo) (alloc : List Char) (ds : Nat) :
    Option ProcParseInfo :=
  if ds < PROC_MTD_FIRST_LEN then none
  else if ¬ alloc.take PROC_MTD_FIRST_LEN = PROC_MTD_FIRST then none
  else some { g with buf := alloc, data_size := ds, next := PROC_MTD_FIRST_LEN }

/-- The loop of `legacy_dev_present`.  The C condition `while (proc_parse_next(&pi))`
is true both for the `1` (record) and the `-1` (parse error) returns, so the body
runs — and the loop continues — in the `err` case too.  The result carries the
C return value and whether the scan buffer was freed before returning. -/
def dev_present_loop (mtd_num : Int) : Nat → ProcParseInfo → Option (Int × Bool)
  | 0, _ => none
  | fuel + 1, pi =>
    match proc_parse_next pi with
    | .eof => some (0, true)
    | .ok pi' =>
      if pi'.mtd_num = mtd_num then some (1, false)
      else dev_present_loop mtd_num fuel pi'
    | .err pi' =>
      if pi'.mtd_num = mtd_num then some (1, false)
      else dev_present_loop mtd_num fuel pi'

/-- `legacy_dev_present`. -/
def legacy_dev_present (g : ProcParseInfo) (alloc : List Char) (ds : Nat)
    (mtd_num : Int) (fuel : Nat) : Option (Int × Bool) :=
  match proc_parse_start g alloc ds with
  | none => some (-1, true)
  | some pi => dev_present_loop mtd_num fuel pi

/-- The three fields of `struct mtd_info` that `legacy_mtd_get_info` touches. -/
structure MtdInfo where
  mtd_dev_cnt : Int
  lowest_mtd_num : Int
  highest_mtd_num : Int
deriving DecidableEq

/-- Body of the `legacy_mtd_get_info` loop for one parsed device number. -/
def get_info_step (info : MtdInfo) (n : Int) : MtdInfo :=
  let i1 := { info with mtd_dev_cnt := info.mtd_dev_cnt + 1 }
  let i2 := if i1.highest_mtd_num < n then { i1 with highest_mtd_num := n } else i1
  if n < i2.lowest_mtd_num then { i2 with lowest_mtd_num := n } else i2

/-- The loop of `legacy_mtd_get_info`; like `dev_present_loop`, the body also
runs on the `-1` parse-error return. -/
def get_info_loop : Nat → ProcParseInfo → MtdInfo → Option (MtdInfo × Bool)
  | 0, _, _ => none
  | fuel + 1, pi, info =>
    match proc_parse_next pi with
    | .eof => some (info, true)
    | .ok pi' => get_info_loop fuel pi' (get_info_step info pi'.mtd_num)
    | .err pi' => get_info_loop fuel pi' (get_info_step info pi'.mtd_num)

/-- `legacy_mtd_get_info`.  `info0` is the caller-supplied `struct mtd_info`
(the function itself initialises only `lowest_mtd_num`, to `INT_MAX`). -/
def legacy_mtd_get_info (g : ProcParseInfo) (alloc : List Char) (ds : Nat)
    (info0 : MtdInfo) (fuel : Nat) : Option (Int × MtdInfo × Bool) :=
  match proc_parse_start g alloc ds with
  | none => some (-1, info0, true)
  | some pi =>
    (get_info_loop fuel pi { info0 with lowest_mtd_num := INT_MAX }).map
      (fun r => (0, r.1, r.2))

/-- Result of `legacy_get_dev_info2`: start failure, the two `ENODEV` failures,
or delegation to `legacy_get_dev_info1` with the resolved device number. -/
inductive Info2Result where
  | startFail : Info2Result
  | ambiguous : Info2Result
  | notFound : Info2Result
  | delegate : Int → Info2Result
deriving DecidableEq

/-- The loop of `legacy_get_dev_info2`; `acc` is the local `mtd_num`
(initially `-1`).  A second name match while `acc ≥ 0` is the name-collision
failure; again the body also runs on the `-1` parse-error return. -/
def info2_loop (qname : List Char) (acc : Int) : Nat → ProcParseInfo →
    Option Info2Result
  | 0, _ => none
  | fuel + 1, pi =>
    match proc_parse_next pi with
    | .eof => if acc < 0 then some .notFound else some (.delegate acc)
    | .ok pi' =>
      if cstr pi'.name = cstr qname then
        if 0 ≤ acc then some .ambiguous
        else info2_loop qname pi'.mtd_num fuel pi'
      else info2_loop qname acc fuel pi'
    | .err pi' =>
      if cstr pi'.name = cstr qname then
        if 0 ≤ acc then some .ambiguous
        else info2_loop qname pi'.mtd_num fuel pi'
      else info2_loop qname acc fuel pi'

/-- `legacy_get_dev_info2`. -/
def legacy_get_dev_info2 (qname : List Char) (g : ProcParseInfo)
    (alloc : List Char) (ds fuel : Nat) : Option Info2Result :=
  match proc_parse_start g alloc ds with
  | none => some .startFail
  | some pi => info2_loop qname (-1) fuel pi

/-- Modelled from the spec: the fields of `struct mtd_info_user` returned by the
`MEMGETINFO` device-control query (`<mtd/mtd-user.h>`, not under `src/`): type
code, flags, total size, erase-unit size, minimum write-unit size, out-of-band
region size — all unsigned 32-bit (the type code 8-bit). -/
structure MtdInfoUser where
  utype : Nat
  flags : Nat
  usize : Nat
  erasesize : Nat
  writesize : Nat
  oobsize : Nat
deriving DecidableEq

/-- How an `ioctl` failed: the distinguished `EOPNOTSUPP` or any other error. -/
inductive IoctlFail where
  | eopnotsupp : IoctlFail
  | other : IoctlFail
deriving DecidableEq

/-- Result of the `ECCGETLAYOUT` ioctl: failure, or success with the (u32)
`oobavail` field of the returned layout structure. -/
inductive EccResult where
  | fail : IoctlFail → EccResult
  | ok : Nat → EccResult
deriving DecidableEq

/-- Conversion of an unsigned 32-bit value to a C `int` (two's complement). -/
def toInt32 (n : Nat) : Int :=
  if n % 4294967296 < 2147483648 then ((n % 4294967296 : Nat) : Int)
  else ((n % 4294967296 : Nat) : Int) - 4294967296

/-- Modelled from the spec: the outcomes of the OS collaborators (`open`, `fstat`,
`S_ISCHR`, the device numbers, `MEMGETINFO`, `MEMGETBADBLOCK`, `ECCGETLAYOUT`).
These are external interfaces (spec §6); one `SysEnv` fixes their responses for
one descriptor-assembly call.  The probe fields describe the second, independent
open performed by `legacy_get_mtd_oobavail`. -/
structure SysEnv where
  open_ok : Bool
  fstat_ok : Bool
  is_chr : Bool
  rdev_major : Nat
  rdev_minor : Nat
  memgetinfo : Option MtdInfoUser
  badblock : Option IoctlFail
  probe_open_ok : Bool
  probe_fstat_ok : Bool
  probe_is_chr : Bool
  ecc : EccResult
deriving DecidableEq

/-- `legacy_get_mtd_oobavail`: on every failure path — including the
`EOPNOTSUPP` one, where no message is printed — `ret` keeps the `-1` the failed
call returned; on success it is the (u32) `oobavail` field converted to `int`. -/
def legacy_get_mtd_oobavail (env : SysEnv) : Int :=
  if ¬ env.probe_open_ok then -1
  else if ¬ env.probe_fstat_ok then -1
  else if ¬ env.probe_is_chr then -1
  else
    match env.ecc with
    | .fail _ => -1
    | .ok v => toInt32 v

/-- Modelled from the spec: the MTD type codes of `<mtd/mtd-abi.h>` (not under
`src/`).  Only their distinctness matters to the claims. -/
def MTD_ABSENT : Nat := 0

/-- MTD type code for RAM. -/
def MTD_RAM : Nat := 1

/-- MTD type code for ROM. -/
def MTD_ROM : Nat := 2

/-- MTD type code for NOR flash. -/
def MTD_NORFLASH : Nat := 3

/-- MTD type code for NAND flash. -/
def MTD_NANDFLASH : Nat := 4

/-- MTD type code for DataFlash. -/
def MTD_DATAFLASH : Nat := 6

/-- MTD type code for an emulated UBI volume. -/
def MTD_UBIVOLUME : Nat := 7

/-- MTD type code for MLC NAND flash. -/
def MTD_MLCNANDFLASH : Nat := 8

/-- The writability bit of the `MEMGETINFO` flags. -/
def MTD_WRITEABLE : Nat := 1024

/-- The `switch (mtd->type)` mapping to canonical type names; `none` is the
silent `default:` branch. -/
def type_str_of (t : Nat) : Option (List Char) :=
  if t = MTD_RAM then some ("ram").data
  else if t = MTD_ROM then some ("rom").data
  else if t = MTD_NORFLASH then some ("nor").data
  else if t = MTD_NANDFLASH then some ("nand").data
  else if t = MTD_MLCNANDFLASH then some ("mlc-nand").data
  else if t = MTD_DATAFLASH then some ("dataflash").data
  else if t = MTD_UBIVOLUME then some ("ubi").data
  else none

/-- The fields of `struct mtd_dev_info` that `legacy_get_dev_info` fills. -/
structure MtdDevInfo where
  mtd_num : Int
  major : Nat
  minor : Nat
  dtype : Nat
  type_str : List Char
  size : Int
  eb_cnt : Int
  eb_size : Int
  min_io_size : Int
  subpage_size : Int
  oob_size : Int
  oobavail : Int
  name : List Char
  writable : Bool
  bb_allowed : Bool
deriving DecidableEq

/-- The `memset(mtd, 0, ...)` state. -/
def zeroDevInfo : MtdDevInfo where
  mtd_num := 0
  major := 0
  minor := 0
  dtype := 0
  type_str := []
  size := 0
  eb_cnt := 0
  eb_size := 0
  min_io_size := 0
  subpage_size := 0
  oob_size := 0
  oobavail := 0
  name := []
  writable := false
  bb_allowed := false

/-- The distinct failure sites of `legacy_get_dev_info` (each a distinct
diagnostic in the C code). -/
inductive ErrSite where
  | openFail : ErrSite
  | statFail : ErrSite
  | notChr : ErrSite
  | wrongMajor : ErrSite
  | memgetinfoFail : ErrSite
  | badblockFail : ErrSite
  | insaneMinIo : ErrSite
  | insaneEb : ErrSite
  | insaneSize : ErrSite
  | absentDev : ErrSite
  | unknownType : ErrSite
  | procStartFail : ErrSite
  | nameNotFound : ErrSite
deriving DecidableEq

/-- The opening steps of `legacy_get_dev_info`: open, stat, character-device
check, major check, device-number derivation, the mandatory `MEMGETINFO` query
and the optional `MEMGETBADBLOCK` query (whose `EOPNOTSUPP` failure is recorded
as `bb_allowed = false`, any other failure being fatal).  On error, the failure
site together with the contents of the caller's struct at that point (`g_mtd`
before the `memset`). -/
def geometry_checks (env : SysEnv) (g_mtd : MtdDevInfo) :
    Except (ErrSite × MtdDevInfo) (MtdDevInfo × MtdInfoUser) :=
  if ¬ env.open_ok then .error (.openFail, g_mtd)
  else if ¬ env.fstat_ok then .error (.statFail, g_mtd)
  else if ¬ env.is_chr then .error (.notChr, g_mtd)
  else
    let m0 := { zeroDevInfo with major := env.rdev_major, minor := env.rdev_minor }
    if ¬ m0.major = MTD_DEV_MAJOR then .error (.wrongMajor, m0)
    else
      let m1 := { m0 with mtd_num := ((env.rdev_minor / 2 : Nat) : Int) }
      match env.memgetinfo with
      | none => .error (.memgetinfoFail, m1)
      | some ui =>
        if env.badblock = some .other then .error (.badblockFail, m1)
        else .ok ({ m1 with bb_allowed := env.badblock = none }, ui)

/-- The validation and derivation steps of `legacy_get_dev_info`: copy the
queried fields (with their u32-to-int conversions), run the three sanity
validations, derive the erase-unit count, map the type code, set the
writability flag and the sub-page size. -/
def geometry_validate (ui : MtdInfoUser) (m2 : MtdDevInfo) :
    Except (ErrSite × MtdDevInfo) MtdDevInfo :=
  let m3 := { m2 with
    dtype := ui.utype
    size := (ui.usize : Int)
    eb_size := toInt32 ui.erasesize
    min_io_size := toInt32 ui.writesize
    oob_size := toInt32 ui.oobsize }
  if m3.min_io_size ≤ 0 then .error (.insaneMinIo, m3)
  else if m3.eb_size ≤ 0 ∨ m3.eb_size < m3.min_io_size then .error (.insaneEb, m3)
  else if m3.size ≤ 0 ∨ m3.size < m3.eb_size then .error (.insaneSize, m3)
  else
    let m4 := { m3 with eb_cnt := ((m3.size.toNat / m3.eb_size.toNat : Nat) : Int) }
    if m4.dtype = MTD_ABSENT then .error (.absentDev, m4)
    else
      match type_str_of m4.dtype with
      | none => .error (.unknownType, m4)
      | some ts =>
        let m5 := { m4 with type_str := ts }
        let m6 := { m5 with writable := ¬ ui.flags &&& MTD_WRITEABLE = 0 }
        .ok { m6 with subpage_size := m6.min_io_size }

/-- Steps 1–10 of `legacy_get_dev_info`: the opening checks and queries, then
validation and derivation.  Every error path here closes the device node
(`out_close` or an explicit `close`). -/
def geometry_phase (env : SysEnv) (g_mtd : MtdDevInfo) :
    Except (ErrSite × MtdDevInfo) MtdDevInfo :=
  match geometry_checks env g_mtd with
  | .error e => .error e
  | .ok mui => geometry_validate mui.2 mui.1

/-- Result of `legacy_get_dev_info`: C return value, the failure site if any,
whether the device node was closed before returning, and the contents of the
caller's `struct mtd_dev_info`. -/
structure DevOutcome where
  ret : Int
  err : Option ErrSite
  fd_closed : Bool
  mtd : MtdDevInfo
deriving DecidableEq

/-- The final name-recovery loop of `legacy_get_dev_info` over `/proc/mtd`;
the body also runs on the `-1` parse-error return of `proc_parse_next`. -/
def name_loop (mtd : MtdDevInfo) : Nat → ProcParseInfo → Option DevOutcome
  | 0, _ => none
  | fuel + 1, pi =>
    match proc_parse_next pi with
    | .eof =>
      some { ret := -1, err := some .nameNotFound, fd_closed := true, mtd := mtd }
    | .ok pi' =>
      if pi'.mtd_num = mtd.mtd_num then
        some { ret := 0, err := none, fd_closed := true,
               mtd := { mtd with name := cstr pi'.name } }
      else name_loop mtd fuel pi'
    | .err pi' =>
      if pi'.mtd_num = mtd.mtd_num then
        some { ret := 0, err := none, fd_closed := true,
               mtd := { mtd with name := cstr pi'.name } }
      else name_loop mtd fuel pi'

/-- `legacy_get_dev_info`: the geometry phase, then `close(fd)`, the capability
probe with its clamp (`mtd->oobavail = ret > 0 ? ret : 0`), then the `/proc/mtd`
rescan for the device name. -/
def legacy_get_dev_info (env : SysEnv) (g_mtd : MtdDevInfo) (g_pi : ProcParseInfo)
    (alloc : List Char) (ds fuel : Nat) : Option DevOutcome :=
  match geometry_phase env g_mtd with
  | .error em =>
    some { ret := -1, err := some em.1, fd_closed := true, mtd := em.2 }
  | .ok mtd0 =>
    let r := legacy_get_mtd_oobavail env
    let mtd1 := { mtd0 with oobavail := if 0 < r then r else 0 }
    match proc_parse_start g_pi alloc ds with
    | none =>
      some { ret := -1, err := some .procStartFail, fd_closed := true, mtd := mtd1 }
    | some pi => name_loop mtd1 fuel pi

/-- One well-formable `/proc/mtd` device line, kept as the digit strings that
appear in the text (so that every rendering — leading zeros included — is
covered) plus the quoted name. -/
structure ProcLine where
  numd : List Char
  sized : List Char
  ebd : List Char
  name : List Char
deriving DecidableEq

/-- The part of a rendered line before the opening quote:
`mtd<numd>: <sized> <ebd> `. -/
def lineHead (L : ProcLine) : List Char :=
  'm' :: 't' :: 'd' :: (L.numd ++ ':' :: ' ' :: (L.sized ++ ' ' :: (L.ebd ++ [' '])))

/-- A rendered `/proc/mtd` device line `mtd<numd>: <sized> <ebd> "<name>"\n`. -/
def renderLine (L : ProcLine) : List Char :=
  lineHead L ++ '"' :: (L.name ++ '"' :: '\n' :: [])

/-- All device lines of a listing. -/
def renderLines (ls : List ProcLine) : List Char := (ls.map renderLine).flatten

/-- A full well-formed `/proc/mtd` listing: the fixed header then the lines. -/
def renderListing (ls : List ProcLine) : List Char := PROC_MTD_FIRST ++ renderLines ls

/-- Shape constraints making a `ProcLine` a line of the fixed listing format
(spec §6): nonempty decimal device number, nonempty hex size and erase-unit
size fields, and a name free of the quote character. -/
def wfLineShape (L : ProcLine) : Prop :=
  ¬ L.numd = [] ∧ (∀ c ∈ L.numd, isDigitC c = true) ∧
  ¬ L.sized = [] ∧ (∀ c ∈ L.sized, isHexC c = true) ∧
  ¬ L.ebd = [] ∧ (∀ c ∈ L.ebd, isHexC c = true) ∧
  (∀ c ∈ L.name, ¬ c = '"')

instance (L : ProcLine) : Decidable (wfLineShape L) := by
  unfold wfLineShape; infer_instance

/-- A fully well-formed line: well shaped, name within the maximum and free of
NUL (a NUL would truncate it as a C string), device number a legal one (below
the `INT_MAX` sentinel). -/
def wfLine (L : ProcLine) : Prop :=
  wfLineShape L ∧ L.name.length ≤ MTD_NAME_MAX ∧ (∀ c ∈ L.name, ¬ c = NUL) ∧
    (decVal L.numd : Int) < INT_MAX

instance (L : ProcLine) : Decidable (wfLine L) := by
  unfold wfLine; infer_instance

/-- The device number a line carries. -/
def lineNum (L : ProcLine) : Int := (decVal L.numd : Int)

/-- Character-class facts used by the parsing lemmas. -/
theorem digitC_not_space {c : Char} (h : isDigitC c = true) : isSpaceC c = false := by
  revert h; simp [isDigitC, isSpaceC]; omega

theorem hexC_not_space {c : Char} (h : isHexC c = true) : isSpaceC c = false := by
  revert h; simp [isHexC, isSpaceC]; omega

theorem digitC_ne_minus {c : Char} (h : isDigitC c = true) : ¬ c = '-' := by
  intro he; subst he; revert h; decide

theorem digitC_ne_plus {c : Char} (h : isDigitC c = true) : ¬ c = '+' := by
  intro he; subst he; revert h; decide

theorem hexC_ne_minus {c : Char} (h : isHexC c = true) : ¬ c = '-' := by
  intro he; subst he; revert h; decide

theorem hexC_ne_plus {c : Char} (h : isHexC c = true) : ¬ c = '+' := by
  intro he; subst he; revert h; decide

theorem digitC_ne_nul {c : Char} (h : isDigitC c = true) : ¬ c = NUL := by
  intro he; subst he; revert h; decide

theorem hexC_ne_nul {c : Char} (h : isHexC c = true) : ¬ c = NUL := by
  intro he; subst he; revert h; decide

theorem digitC_ne_quote {c : Char} (h : isDigitC c = true) : ¬ c = '"' := by
  intro he; subst he; revert h; decide

theorem hexC_ne_quote {c : Char} (h : isHexC c = true) : ¬ c = '"' := by
  intro he; subst he; revert h; decide

/-- `takeWhile` stops exactly at the first failing element. -/
theorem takeWhile_app_stop (p : Char → Bool) (xs : List Char) (c : Char)
    (ys : List Char) (h1 : ∀ x ∈ xs, p x = true) (h2 : p c = false) :
    (xs ++ c :: ys).takeWhile p = xs := by
  induction xs with
  | nil => simp [List.takeWhile_cons, h2]
  | cons a t ih =>
    have ha : p a = true := h1 a (by simp)
    simp only [List.cons_append, List.takeWhile_cons, ha, if_true]
    rw [ih (fun x hx => h1 x (by simp [hx]))]

/-- `dropWhile` stops exactly at the first failing element. -/
theorem dropWhile_app_stop (p : Char → Bool) (xs : List Char) (c : Char)
    (ys : List Char) (h1 : ∀ x ∈ xs, p x = true) (h2 : p c = false) :
    (xs ++ c :: ys).dropWhile p = c :: ys := by
  induction xs with
  | nil => simp [List.dropWhile_cons, h2]
  | cons a t ih =>
    have ha : p a = true := h1 a (by simp)
    simp only [List.cons_append, List.dropWhile_cons, ha, if_true]
    exact ih (fun x hx => h1 x (by simp [hx]))

/-- `cstr` walks through a non-NUL head character. -/
theorem cstr_cons_ne (c : Char) (l : List Char) (h : ¬ c = NUL) :
    cstr (c :: l) = c :: cstr l := by
  simp [cstr, List.takeWhile_cons, h]

/-- `cstr` distributes over a NUL-free prefix. -/
theorem cstr_append_of (l r : List Char) (h : ∀ c ∈ l, ¬ c = NUL) :
    cstr (l ++ r) = l ++ cstr r := by
  induction l with
  | nil => simp
  | cons a t ih =>
    have ha : ¬ a = NUL := h a (by simp)
    simp only [List.cons_append]
    rw [cstr_cons_ne _ _ ha, ih (fun c hc => h c (by simp [hc]))]

/-- `memchr` finds the first occurrence. -/
theorem memchr_app_first (pre : List Char) (c : Char) (post : List Char) (n : Nat)
    (h1 : ∀ x ∈ pre, ¬ x = c) (h2 : pre.length < n) :
    memchr (pre ++ c :: post) c n = some pre.length := by
  induction pre generalizing n with
  | nil =>
    cases n with
    | zero => omega
    | succ n => simp [memchr]
  | cons a t ih =>
    cases n with
    | zero => omega
    | succ n =>
      have ha : ¬ a = c := h1 a (by simp)
      have h2' : t.length < n := by simp at h2; omega
      simp only [List.cons_append, memchr, ha, if_false, List.append_eq]
      rw [ih n (fun x hx => h1 x (by simp [hx])) h2']
      rfl

/-- `memchr` misses when the character does not occur in the searched window. -/
theorem memchr_none_of (l : List Char) (c : Char) (n : Nat)
    (h : ∀ x ∈ l.take n, ¬ x = c) : memchr l c n = none := by
  induction l generalizing n with
  | nil => cases n <;> simp [memchr]
  | cons a t ih =>
    cases n with
    | zero => simp [memchr]
    | succ n =>
      have ha : ¬ a = c := h a (by simp)
      simp only [memchr, ha, if_false]
      rw [ih n (fun x hx => h x (by simp [List.take_succ_cons]; right; exact hx))]
      rfl

/-- A `scanf` numeric conversion applied to a nonempty digit run followed by a
stopping character consumes exactly the run. -/
theorem scanNum_run (isD : Char → Bool) (val : List Char → Nat)
    (hspace : ∀ x, isD x = true → isSpaceC x = false)
    (hminus : ∀ x, isD x = true → ¬ x = '-')
    (hplus : ∀ x, isD x = true → ¬ x = '+')
    (d : List Char) (c : Char) (ys : List Char)
    (hd : ¬ d = []) (hall : ∀ x ∈ d, isD x = true) (hc : isD c = false) :
    scanNum isD val (d ++ c :: ys) = some ((val d : Int), c :: ys) := by
  cases d with
  | nil => exact absurd rfl hd
  | cons a t =>
    have ha : isD a = true := hall a (by simp)
    have hsp : isSpaceC a = false := hspace a ha
    have hm : ¬ a = '-' := hminus a ha
    have hp : ¬ a = '+' := hplus a ha
    unfold scanNum
    rw [List.cons_append, List.dropWhile_cons]
    simp only [hsp, if_false, Bool.false_eq_true]
    simp only [hm, hp, if_false]
    rw [← List.cons_append, takeWhile_app_stop isD (a :: t) c ys hall hc,
      dropWhile_app_stop isD (a :: t) c ys hall hc]
    simp [hd]

/-- `sscanf_mtd` on a rendered line body: all three conversions succeed with
the values of the three digit strings. -/
theorem sscanf_mtd_line (nd sd ed X : List Char)
    (h1 : ¬ nd = []) (h2 : ∀ c ∈ nd, isDigitC c = true)
    (h3 : ¬ sd = []) (h4 : ∀ c ∈ sd, isHexC c = true)
    (h5 : ¬ ed = []) (h6 : ∀ c ∈ ed, isHexC c = true) :
    sscanf_mtd ('m' :: 't' :: 'd' ::
        (nd ++ ':' :: ' ' :: (sd ++ ' ' :: (ed ++ ' ' :: '"' :: X)))) =
      [(decVal nd : Int), (hexVal sd : Int), (hexVal ed : Int)] := by
  have hdig := fun x (h : isDigitC x = true) => digitC_not_space h
  have hhex := fun x (h : isHexC x = true) => hexC_not_space h
  have hmatch : matchLit ('m' :: 't' :: 'd' :: [])
      ('m' :: 't' :: 'd' :: (nd ++ ':' :: ' ' :: (sd ++ ' ' :: (ed ++ ' ' :: '"' :: X))))
      = some (nd ++ ':' :: ' ' :: (sd ++ ' ' :: (ed ++ ' ' :: '"' :: X))) := by
    simp [matchLit]
  have hs1 : scanNum isDigitC decVal (nd ++ ':' :: ' ' :: (sd ++ ' ' :: (ed ++ ' ' :: '"' :: X)))
      = some ((decVal nd : Int), ':' :: ' ' :: (sd ++ ' ' :: (ed ++ ' ' :: '"' :: X))) :=
    scanNum_run isDigitC decVal hdig (fun x h => digitC_ne_minus h)
      (fun x h => digitC_ne_plus h) nd ':' _ h1 h2 (by decide)
  have hdw2 : (' ' :: (sd ++ ' ' :: (ed ++ ' ' :: '"' :: X))).dropWhile isSpaceC
      = sd ++ ' ' :: (ed ++ ' ' :: '"' :: X) := by
    rw [List.dropWhile_cons, if_pos (by decide : isSpaceC ' ' = true)]
    cases sd with
    | nil => exact absurd rfl h3
    | cons b t =>
      have hb : isSpaceC b = false := hexC_not_space (h4 b (by simp))
      rw [List.cons_append, List.dropWhile_cons, if_neg (by simp [hb])]
  have hs2 : scanNum isHexC hexVal (sd ++ ' ' :: (ed ++ ' ' :: '"' :: X))
      = some ((hexVal sd : Int), ' ' :: (ed ++ ' ' :: '"' :: X)) :=
    scanNum_run isHexC hexVal hhex (fun x h => hexC_ne_minus h)
      (fun x h => hexC_ne_plus h) sd ' ' _ h3 h4 (by decide)
  have hdw3 : (' ' :: (ed ++ ' ' :: '"' :: X)).dropWhile isSpaceC
      = ed ++ ' ' :: '"' :: X := by
    rw [List.dropWhile_cons, if_pos (by decide : isSpaceC ' ' = true)]
    cases ed with
    | nil => exact absurd rfl h5
    | cons b t =>
      have hb : isSpaceC b = false := hexC_not_space (h6 b (by simp))
      rw [List.cons_append, List.dropWhile_cons, if_neg (by simp [hb])]
  have hs3 : scanNum isHexC hexVal (ed ++ ' ' :: '"' :: X)
      = some ((hexVal ed : Int), ' ' :: '"' :: X) :=
    scanNum_run isHexC hexVal hhex (fun x h => hexC_ne_minus h)
      (fun x h => hexC_ne_plus h) ed ' ' _ h5 h6 (by decide)
  unfold sscanf_mtd
  simp only [hmatch, hs1, hdw2, hs2, hdw3, hs3]

/-- `cstr` leaves the (NUL-free) head of a rendered line alone. -/
theorem cstr_line (nd sd ed R : List Char)
    (h2 : ∀ c ∈ nd, isDigitC c = true) (h4 : ∀ c ∈ sd, isHexC c = true)
    (h6 : ∀ c ∈ ed, isHexC c = true) :
    cstr ('m' :: 't' :: 'd' :: (nd ++ ':' :: ' ' :: (sd ++ ' ' :: (ed ++ ' ' :: '"' :: R)))) =
      'm' :: 't' :: 'd' :: (nd ++ ':' :: ' ' :: (sd ++ ' ' :: (ed ++ ' ' :: '"' :: cstr R))) := by
  rw [cstr_cons_ne _ _ (by decide), cstr_cons_ne _ _ (by decide),
    cstr_cons_ne _ _ (by decide),
    cstr_append_of _ _ (fun c hc => digitC_ne_nul (h2 c hc)),
    cstr_cons_ne _ _ (by decide), cstr_cons_ne _ _ (by decide),
    cstr_append_of _ _ (fun c hc => hexC_ne_nul (h4 c hc)),
    cstr_cons_ne _ _ (by decide),
    cstr_append_of _ _ (fun c hc => hexC_ne_nul (h6 c hc)),
    cstr_cons_ne _ _ (by decide), cstr_cons_ne _ _ (by decide)]

/-- No character of a rendered line head is a quote. -/
theorem lineHead_quote_free (L : ProcLine) (hL : wfLineShape L) :
    ∀ x ∈ lineHead L, ¬ x = '"' := by
  obtain ⟨h1, h2, h3, h4, h5, h6, h7⟩ := hL
  intro x hx heq
  subst heq
  simp [lineHead] at hx
  rcases hx with hx | hx | hx
  · exact digitC_ne_quote (h2 _ hx) rfl
  · exact hexC_ne_quote (h4 _ hx) rfl
  · exact hexC_ne_quote (h6 _ hx) rfl

/-- The scanning core applied at the start of a well-shaped rendered line:
it accepts the line exactly when the name fits in `MTD_NAME_MAX`, returning the
three converted values, the name, and the offset just past the line; an
overlong name is rejected before the name is copied. -/
theorem parse_core_render (pre : List Char) (L : ProcLine) (suf : List Char)
    (hL : wfLineShape L) :
    parse_core (pre ++ (renderLine L ++ suf)) (pre ++ (renderLine L ++ suf)).length
        pre.length =
      if L.name.length ≤ MTD_NAME_MAX then
        .ok (decVal L.numd : Int) (hexVal L.sized : Int) (hexVal L.ebd : Int) L.name
          (pre.length + (renderLine L).length)
      else
        .err [(decVal L.numd : Int), (hexVal L.sized : Int), (hexVal L.ebd : Int)]
          none := by
  obtain ⟨h1, h2, h3, h4, h5, h6, h7⟩ := hL
  have hA : (renderLine L).length = (lineHead L).length + L.name.length + 3 := by
    simp [renderLine]; omega
  have hH : (lineHead L).length =
      L.numd.length + L.sized.length + L.ebd.length + 7 := by
    simp [lineHead]; omega
  have hT : (pre ++ (renderLine L ++ suf)).length =
      pre.length + (renderLine L).length + suf.length := by
    simp only [List.length_append]
    omega
  have hdrop0 : (pre ++ (renderLine L ++ suf)).drop pre.length = renderLine L ++ suf :=
    List.drop_left' rfl
  have hnle0 : ¬ (pre ++ (renderLine L ++ suf)).length ≤ pre.length := by
    rw [hT]; omega
  have hshape : renderLine L ++ suf = 'm' :: 't' :: 'd' ::
      (L.numd ++ ':' :: ' ' :: (L.sized ++ ' ' ::
        (L.ebd ++ ' ' :: '"' :: (L.name ++ '"' :: '\n' :: suf)))) := by
    simp [renderLine, lineHead]
  have hss : sscanf_mtd (cstr ((pre ++ (renderLine L ++ suf)).drop pre.length)) =
      [(decVal L.numd : Int), (hexVal L.sized : Int), (hexVal L.ebd : Int)] := by
    rw [hdrop0, hshape, cstr_line _ _ _ _ h2 h4 h6,
      sscanf_mtd_line _ _ _ _ h1 h2 h3 h4 h5 h6]
  have hshape2 : renderLine L ++ suf =
      lineHead L ++ '"' :: (L.name ++ '"' :: '\n' :: suf) := by
    simp [renderLine]
  have hm1 : memchr ((pre ++ (renderLine L ++ suf)).drop pre.length) '"'
      ((pre ++ (renderLine L ++ suf)).length - pre.length) = some (lineHead L).length := by
    rw [hdrop0, hshape2]
    exact memchr_app_first _ _ _ _ (lineHead_quote_free L ⟨h1, h2, h3, h4, h5, h6, h7⟩)
      (by simp [renderLine])
  have hnle1 : ¬ (pre ++ (renderLine L ++ suf)).length ≤
      pre.length + (lineHead L).length + 1 := by
    rw [hT]; omega
  have hdropP : (pre ++ (renderLine L ++ suf)).drop (pre.length + (lineHead L).length + 1) =
      L.name ++ '"' :: '\n' :: suf := by
    rw [show pre ++ (renderLine L ++ suf) =
        (pre ++ (lineHead L ++ ['"'])) ++ (L.name ++ '"' :: '\n' :: suf) from by
      simp [renderLine]]
    exact List.drop_left' (by simp <;> omega)
  have hm2 : memchr (L.name ++ '"' :: '\n' :: suf) '"'
      ((pre ++ (renderLine L ++ suf)).length - (pre.length + (lineHead L).length + 1)) =
      some L.name.length :=
    memchr_app_first _ _ _ _ h7 (by rw [hT]; omega)
  have hnle2 : ¬ (pre ++ (renderLine L ++ suf)).length ≤
      pre.length + (lineHead L).length + 1 + L.name.length := by
    rw [hT]; omega
  have htake : (L.name ++ '"' :: '\n' :: suf).take L.name.length = L.name :=
    List.take_left' rfl
  have hterm : ((pre ++ (renderLine L ++ suf)).drop
      (pre.length + (lineHead L).length + 1 + L.name.length + 1)).head? = some '\n' := by
    rw [show pre ++ (renderLine L ++ suf) =
        (pre ++ (lineHead L ++ '"' :: L.name ++ ['"'])) ++ ('\n' :: suf) from by
      simp [renderLine]]
    rw [List.drop_left' (by simp <;> omega)]
    rfl
  unfold parse_core
  rw [if_neg hnle0, hss]
  by_cases hnm : L.name.length ≤ MTD_NAME_MAX
  · rw [if_pos hnm]
    simp only [hm1, hnle1, hdropP, hm2, hnle2, htake, hterm,
      if_neg (by omega : ¬ MTD_NAME_MAX < L.name.length)]
    simp only [eq_self_iff_true, if_true, ite_true, if_false, ite_false]
    rw [show pre.length + (lineHead L).length + 1 + L.name.length + 2 =
      pre.length + (renderLine L).length from by omega]
  · rw [if_neg hnm]
    simp only [hm1, hnle1, hdropP, hm2, hnle2, htake, hterm,
      if_pos (by omega : MTD_NAME_MAX < L.name.length)]
    simp

/-- `proc_parse_next` at end-of-data. -/
theorem proc_parse_next_eof (pi : ProcParseInfo) (h : pi.data_size ≤ pi.next) :
    proc_parse_next pi = .eof := by
  unfold proc_parse_next parse_core
  rw [if_pos h]

/-- `proc_parse_next` on a cursor standing at a well-shaped rendered line whose
name fits: one record is produced and the cursor moves just past the line. -/
theorem proc_parse_next_render (pi : ProcParseInfo) (pre : List Char) (L : ProcLine)
    (suf : List Char) (hL : wfLineShape L) (hlen : L.name.length ≤ MTD_NAME_MAX)
    (hbuf : pi.buf = pre ++ (renderLine L ++ suf))
    (hds : pi.data_size = pi.buf.length)
    (hnext : pi.next = pre.length) :
    proc_parse_next pi = .ok { pi with
      mtd_num := (decVal L.numd : Int)
      size := (hexVal L.sized : Int)
      eb_size := (hexVal L.ebd : Int)
      name := L.name
      next := pre.length + (renderLine L).length } := by
  unfold proc_parse_next
  rw [hds, hbuf, hnext, parse_core_render pre L suf hL, if_pos hlen]

/-- `renderLines` unfolds over a head line. -/
theorem renderLines_cons (L : ProcLine) (rs : List ProcLine) :
    renderLines (L :: rs) = renderLine L ++ renderLines rs := by
  simp [renderLines]

/-- The `legacy_mtd_get_info` loop over a rendered listing tail folds
`get_info_step` over the remaining lines and frees the buffer at end-of-data. -/
theorem get_info_loop_render (recs : List ProcLine) :
    ∀ (pre : List Char) (pi : ProcParseInfo) (info : MtdInfo) (fuel : Nat),
    (∀ L ∈ recs, wfLine L) →
    pi.buf = pre ++ renderLines recs → pi.data_size = pi.buf.length →
    pi.next = pre.length → recs.length < fuel →
    get_info_loop fuel pi info =
      some (recs.foldl (fun i L => get_info_step i (lineNum L)) info, true) := by
  induction recs with
  | nil =>
    intro pre pi info fuel hwf hbuf hds hnext hfuel
    cases fuel with
    | zero => omega
    | succ f =>
      have hend : pi.data_size ≤ pi.next := by
        rw [hds, hbuf, hnext]; simp [renderLines]
      unfold get_info_loop
      rw [proc_parse_next_eof pi hend]
      rfl
  | cons L rs ih =>
    intro pre pi info fuel hwf hbuf hds hnext hfuel
    cases fuel with
    | zero => simp at hfuel
    | succ f =>
      obtain ⟨hshape, hlen, hnul, hnum⟩ := hwf L (by simp)
      have hbuf' : pi.buf = pre ++ (renderLine L ++ renderLines rs) := by
        rw [hbuf, renderLines_cons]
      have hstep := proc_parse_next_render pi pre L (renderLines rs) hshape hlen
        hbuf' hds hnext
      unfold get_info_loop
      rw [hstep]
      simp only [List.foldl_cons]
      exact ih (pre ++ renderLine L)
        { pi with
          mtd_num := (decVal L.numd : Int)
          size := (hexVal L.sized : Int)
          eb_size := (hexVal L.ebd : Int)
          name := L.name
          next := pre.length + (renderLine L).length }
        (get_info_step info (lineNum L)) f
        (fun X hX => hwf X (by simp [hX]))
        (by simp only [hbuf']; simp [List.append_assoc])
        (by simp only []; rw [hds, hbuf'])
        (by simp)
        (by simp at hfuel ⊢; omega)

/-- `cstr` is the identity on NUL-free text. -/
theorem cstr_of_nul_free (l : List Char) (h : ∀ c ∈ l, ¬ c = NUL) : cstr l = l := by
  induction l with
  | nil => rfl
  | cons a t ih =>
    rw [cstr_cons_ne _ _ (h a (by simp)), ih (fun c hc => h c (by simp [hc]))]

/-- What `legacy_get_dev_info2` computes from the matches remaining in the
listing, given the device number `acc` accumulated so far (`-1` if none). -/
def info2_expected (acc : Int) (ms : List ProcLine) : Info2Result :=
  match ms with
  | [] => if acc < 0 then .notFound else .delegate acc
  | [M] => if acc < 0 then .delegate (lineNum M) else .ambiguous
  | _ :: _ :: _ => .ambiguous

/-- Recursion equation for `info2_expected` over a matching head line. -/
theorem info2_expected_cons (acc : Int) (M : ProcLine) (ms : List ProcLine)
    (h : 0 ≤ lineNum M) :
    info2_expected acc (M :: ms) =
      if 0 ≤ acc then .ambiguous else info2_expected (lineNum M) ms := by
  cases ms with
  | nil =>
    by_cases h0 : 0 ≤ acc
    · simp [info2_expected, h0, show ¬ acc < 0 from by omega]
    · simp [info2_expected, h0, show acc < 0 from by omega,
        show ¬ lineNum M < 0 from by omega]
  | cons M2 ms2 =>
    by_cases h0 : 0 ≤ acc
    · simp [info2_expected, h0]
    · cases ms2 with
      | nil =>
        simp [info2_expected, h0, show ¬ lineNum M < 0 from by omega]
      | cons M3 ms3 => simp [info2_expected, h0]

/-- The `legacy_get_dev_info2` loop over a rendered listing tail: it computes
`info2_expected` of the lines whose (C-string) name equals the requested name. -/
theorem info2_loop_render (recs : List ProcLine) :
    ∀ (pre : List Char) (pi : ProcParseInfo) (qname : List Char) (acc : Int)
      (fuel : Nat),
    (∀ L ∈ recs, wfLine L) →
    pi.buf = pre ++ renderLines recs → pi.data_size = pi.buf.length →
    pi.next = pre.length → recs.length < fuel →
    info2_loop qname acc fuel pi =
      some (info2_expected acc
        (recs.filter (fun M => decide (M.name = cstr qname)))) := by
  induction recs with
  | nil =>
    intro pre pi qname acc fuel hwf hbuf hds hnext hfuel
    cases fuel with
    | zero => omega
    | succ f =>
      have hend : pi.data_size ≤ pi.next := by
        rw [hds, hbuf, hnext]; simp [renderLines]
      unfold info2_loop
      rw [proc_parse_next_eof pi hend]
      simp only [List.filter_nil, info2_expected]
      by_cases h0 : acc < 0
      · simp [h0]
      · simp [h0]
  | cons L rs ih =>
    intro pre pi qname acc fuel hwf hbuf hds hnext hfuel
    cases fuel with
    | zero => simp at hfuel
    | succ f =>
      obtain ⟨hshape, hlen, hnul, hnum⟩ := hwf L (by simp)
      have hbuf' : pi.buf = pre ++ (renderLine L ++ renderLines rs) := by
        rw [hbuf, renderLines_cons]
      have hstep := proc_parse_next_render pi pre L (renderLines rs) hshape hlen
        hbuf' hds hnext
      have hcstr : cstr L.name = L.name := cstr_of_nul_free L.name hnul
      have hnumpos : (0 : Int) ≤ lineNum L := Int.natCast_nonneg _
      have ihapp := fun qn ac => ih (pre ++ renderLine L)
        { pi with
          mtd_num := (decVal L.numd : Int)
          size := (hexVal L.sized : Int)
          eb_size := (hexVal L.ebd : Int)
          name := L.name
          next := pre.length + (renderLine L).length }
        qn ac f
        (fun X hX => hwf X (by simp [hX]))
        (by simp only [hbuf']; simp [List.append_assoc])
        (by simp only []; rw [hds, hbuf'])
        (by simp)
        (by simp at hfuel ⊢; omega)
      unfold info2_loop
      rw [hstep]
      simp only [hcstr]
      by_cases hmatch : L.name = cstr qname
      · rw [if_pos hmatch]
        rw [List.filter_cons_of_pos (by simp [hmatch])]
        rw [info2_expected_cons acc L _ hnumpos]
        by_cases h0 : 0 ≤ acc
        · rw [if_pos h0, if_pos h0]
        · rw [if_neg h0, if_neg h0]
          exact ihapp qname (lineNum L)
      · rw [if_neg hmatch]
        rw [List.filter_cons_of_neg (by simp [hmatch])]
        exact ihapp qname acc

/-- The summary fold. -/
def infoFold (info : MtdInfo) (recs : List ProcLine) : MtdInfo :=
  recs.foldl (fun i L => get_info_step i (lineNum L)) info

/-- One summary step increments the count. -/
theorem get_info_step_cnt (i : MtdInfo) (n : Int) :
    (get_info_step i n).mtd_dev_cnt = i.mtd_dev_cnt + 1 := by
  unfold get_info_step
  dsimp only
  split <;> split <;> rfl

/-- One summary step keeps the smaller of the old low mark and the new number. -/
theorem get_info_step_lowest (i : MtdInfo) (n : Int) :
    (get_info_step i n).lowest_mtd_num =
      if n < i.lowest_mtd_num then n else i.lowest_mtd_num := by
  unfold get_info_step
  dsimp only
  split <;> split <;> rfl

/-- One summary step keeps the larger of the old high mark and the new number. -/
theorem get_info_step_highest (i : MtdInfo) (n : Int) :
    (get_info_step i n).highest_mtd_num =
      if i.highest_mtd_num < n then n else i.highest_mtd_num := by
  unfold get_info_step
  dsimp only
  split <;> split <;> rfl

/-- The summary fold adds the number of lines to the count. -/
theorem infoFold_cnt (recs : List ProcLine) :
    ∀ info : MtdInfo,
    (infoFold info recs).mtd_dev_cnt = info.mtd_dev_cnt + recs.length := by
  induction recs with
  | nil => intro info; simp [infoFold]
  | cons L rs ih =>
    intro info
    have : infoFold info (L :: rs) = infoFold (get_info_step info (lineNum L)) rs := by
      simp [infoFold]
    rw [this, ih, get_info_step_cnt]
    simp
    omega

/-- The low mark of the summary fold is the old mark or one of the numbers,
and is a lower bound for both. -/
theorem infoFold_lowest (recs : List ProcLine) :
    ∀ info : MtdInfo,
    ((infoFold info recs).lowest_mtd_num = info.lowest_mtd_num ∨
      (infoFold info recs).lowest_mtd_num ∈ recs.map lineNum) ∧
    (infoFold info recs).lowest_mtd_num ≤ info.lowest_mtd_num ∧
    (∀ x ∈ recs.map lineNum, (infoFold info recs).lowest_mtd_num ≤ x) := by
  induction recs with
  | nil => intro info; simp [infoFold]
  | cons L rs ih =>
    intro info
    have hrw : infoFold info (L :: rs) = infoFold (get_info_step info (lineNum L)) rs := by
      simp [infoFold]
    obtain ⟨hmem, hle, hall⟩ := ih (get_info_step info (lineNum L))
    have hsl := get_info_step_lowest info (lineNum L)
    have hone : (get_info_step info (lineNum L)).lowest_mtd_num = lineNum L ∨
        (get_info_step info (lineNum L)).lowest_mtd_num = info.lowest_mtd_num := by
      rw [hsl]; split
      · exact Or.inl rfl
      · exact Or.inr rfl
    have hlen : (get_info_step info (lineNum L)).lowest_mtd_num ≤ lineNum L ∧
        (get_info_step info (lineNum L)).lowest_mtd_num ≤ info.lowest_mtd_num := by
      rw [hsl]; split <;> constructor <;> omega
    rw [hrw]
    refine ⟨?_, ?_, ?_⟩
    · rcases hmem with he | hm
      · rw [he]
        rcases hone with h1 | h1
        · right; rw [h1]; simp
        · left; exact h1
      · right; simp [hm]
    · exact le_trans hle hlen.2
    · intro x hx
      simp only [List.map_cons, List.mem_cons] at hx
      rcases hx with rfl | hx
      · exact le_trans hle hlen.1
      · exact hall x hx

/-- The high mark of the summary fold is the old mark or one of the numbers,
and is an upper bound for both. -/
theorem infoFold_highest (recs : List ProcLine) :
    ∀ info : MtdInfo,
    ((infoFold info recs).highest_mtd_num = info.highest_mtd_num ∨
      (infoFold info recs).highest_mtd_num ∈ recs.map lineNum) ∧
    info.highest_mtd_num ≤ (infoFold info recs).highest_mtd_num ∧
    (∀ x ∈ recs.map lineNum, x ≤ (infoFold info recs).highest_mtd_num) := by
  induction recs with
  | nil => intro info; simp [infoFold]
  | cons L rs ih =>
    intro info
    have hrw : infoFold info (L :: rs) = infoFold (get_info_step info (lineNum L)) rs := by
      simp [infoFold]
    obtain ⟨hmem, hle, hall⟩ := ih (get_info_step info (lineNum L))
    have hsh := get_info_step_highest info (lineNum L)
    have hone : (get_info_step info (lineNum L)).highest_mtd_num = lineNum L ∨
        (get_info_step info (lineNum L)).highest_mtd_num = info.highest_mtd_num := by
      rw [hsh]; split
      · exact Or.inl rfl
      · exact Or.inr rfl
    have hlen : lineNum L ≤ (get_info_step info (lineNum L)).highest_mtd_num ∧
        info.highest_mtd_num ≤ (get_info_step info (lineNum L)).highest_mtd_num := by
      rw [hsh]; split <;> constructor <;> omega
    rw [hrw]
    refine ⟨?_, ?_, ?_⟩
    · rcases hmem with he | hm
      · rw [he]
        rcases hone with h1 | h1
        · right; rw [h1]; simp
        · left; exact h1
      · right; simp [hm]
    · exact le_trans hlen.2 hle
    · intro x hx
      simp only [List.map_cons, List.mem_cons] at hx
      rcases hx with rfl | hx
      · exact le_trans hlen.1 hle
      · exact hall x hx

/-- Whatever `name_loop` returns keeps the geometry fields of the descriptor it
was given, closes the node, and yields C return 0 or -1. -/
theorem name_loop_some (mtd : MtdDevInfo) :
    ∀ (fuel : Nat) (pi : ProcParseInfo) (o : DevOutcome),
    name_loop mtd fuel pi = some o →
    o.fd_closed = true ∧ o.mtd.oobavail = mtd.oobavail ∧ o.mtd.eb_cnt = mtd.eb_cnt ∧
      o.mtd.eb_size = mtd.eb_size ∧ o.mtd.size = mtd.size ∧
      o.mtd.mtd_num = mtd.mtd_num ∧ (o.ret = 0 ∨ o.ret = -1) := by
  intro fuel
  induction fuel with
  | zero => intro pi o h; simp [name_loop] at h
  | succ f ih =>
    intro pi o h
    unfold name_loop at h
    cases hstep : proc_parse_next pi with
    | eof =>
      simp only [hstep] at h
      obtain rfl := (Option.some.inj h).symm
      simp
    | ok pi' =>
      simp only [hstep] at h
      by_cases hc : pi'.mtd_num = mtd.mtd_num
      · rw [if_pos hc] at h
        obtain rfl := (Option.some.inj h).symm
        simp
      · rw [if_neg hc] at h
        exact ih pi' o h
    | err pi' =>
      simp only [hstep] at h
      by_cases hc : pi'.mtd_num = mtd.mtd_num
      · rw [if_pos hc] at h
        obtain rfl := (Option.some.inj h).symm
        simp
      · rw [if_neg hc] at h
        exact ih pi' o h

/-- The C return value of `name_loop` depends on the given descriptor only
through its device number. -/
theorem name_loop_ret_congr (mtd1 mtd2 : MtdDevInfo)
    (hnum : mtd1.mtd_num = mtd2.mtd_num) :
    ∀ (fuel : Nat) (pi : ProcParseInfo),
    (name_loop mtd1 fuel pi).map DevOutcome.ret =
      (name_loop mtd2 fuel pi).map DevOutcome.ret := by
  intro fuel
  induction fuel with
  | zero => intro pi; simp [name_loop]
  | succ f ih =>
    intro pi
    unfold name_loop
    cases hstep : proc_parse_next pi with
    | eof => simp only [hstep]; rfl
    | ok pi' =>
      simp only [hstep, hnum]
      by_cases hc : pi'.mtd_num = mtd2.mtd_num
      · rw [if_pos hc, if_pos hc]; rfl
      · rw [if_neg hc, if_neg hc]; exact ih pi'
    | err pi' =>
      simp only [hstep, hnum]
      by_cases hc : pi'.mtd_num = mtd2.mtd_num
      · rw [if_pos hc, if_pos hc]; rfl
      · rw [if_neg hc, if_neg hc]; exact ih pi'

/-- The `legacy_dev_present` loop frees the buffer exactly when it does not end
in the early-success return. -/
theorem dev_present_loop_freed (mtd_num : Int) :
    ∀ (fuel : Nat) (pi : ProcParseInfo) (r : Int) (f : Bool),
    dev_present_loop mtd_num fuel pi = some (r, f) → (f = true ↔ ¬ r = 1) := by
  intro fuel
  induction fuel with
  | zero => intro pi r f h; simp [dev_present_loop] at h
  | succ fl ih =>
    intro pi r f h
    unfold dev_present_loop at h
    cases hstep : proc_parse_next pi with
    | eof =>
      simp only [hstep] at h
      obtain ⟨rfl, rfl⟩ : r = 0 ∧ f = true := by
        have := Option.some.inj h
        exact ⟨(congrArg Prod.fst this).symm, (congrArg Prod.snd this).symm⟩
      simp
    | ok pi' =>
      simp only [hstep] at h
      by_cases hc : pi'.mtd_num = mtd_num
      · rw [if_pos hc] at h
        obtain ⟨rfl, rfl⟩ : r = 1 ∧ f = false := by
          have := Option.some.inj h
          exact ⟨(congrArg Prod.fst this).symm, (congrArg Prod.snd this).symm⟩
        simp
      · rw [if_neg hc] at h
        exact ih pi' r f h
    | err pi' =>
      simp only [hstep] at h
      by_cases hc : pi'.mtd_num = mtd_num
      · rw [if_pos hc] at h
        obtain ⟨rfl, rfl⟩ : r = 1 ∧ f = false := by
          have := Option.some.inj h
          exact ⟨(congrArg Prod.fst this).symm, (congrArg Prod.snd this).symm⟩
        simp
      · rw [if_neg hc] at h
        exact ih pi' r f h

/-- `applyUpd` never touches the buffer, the valid length, or the cursor. -/
theorem applyUpd_frame (pi : ProcParseInfo) (vals : List Int)
    (nm : Option (List Char)) :
    (applyUpd pi vals nm).buf = pi.buf ∧
    (applyUpd pi vals nm).data_size = pi.data_size ∧
    (applyUpd pi vals nm).next = pi.next := by
  cases nm <;> rcases vals with _ | ⟨a, _ | ⟨b, _ | ⟨c, t⟩⟩⟩ <;>
    exact ⟨rfl, rfl, rfl⟩

/-- Applying the same struct writes twice is the same as applying them once. -/
theorem applyUpd_idem (pi : ProcParseInfo) (vals : List Int)
    (nm : Option (List Char)) :
    applyUpd (applyUpd pi vals nm) vals nm = applyUpd pi vals nm := by
  cases nm <;> rcases vals with _ | ⟨a, _ | ⟨b, _ | ⟨c, t⟩⟩⟩ <;> rfl

/-- `memchr` reports an index inside the searched window. -/
theorem memchr_lt (l : List Char) (c : Char) (n i : Nat)
    (h : memchr l c n = some i) : i < n := by
  induction l generalizing n i with
  | nil => cases n <;> simp [memchr] at h
  | cons x xs ih =>
    cases n with
    | zero => simp [memchr] at h
    | succ n =>
      unfold memchr at h
      by_cases hx : x = c
      · rw [if_pos hx] at h
        obtain rfl := (Option.some.inj h).symm
        omega
      · rw [if_neg hx] at h
        cases hm : memchr xs c n with
        | none => rw [hm] at h; simp at h
        | some i' =>
          rw [hm] at h
          simp at h
          have := ih n i' hm
          omega

/-- `memchr` only looks at the first `n` elements. -/
theorem memchr_take_congr (l1 l2 : List Char) (c : Char) (n : Nat)
    (h : l1.take n = l2.take n) : memchr l1 c n = memchr l2 c n := by
  induction n generalizing l1 l2 with
  | zero =>
    cases l1 <;> cases l2 <;> rfl
  | succ n ih =>
    cases l1 with
    | nil =>
      cases l2 with
      | nil => rfl
      | cons y ys => simp at h
    | cons x xs =>
      cases l2 with
      | nil => simp at h
      | cons y ys =>
        simp only [List.take_succ_cons, List.cons.injEq] at h
        obtain ⟨rfl, htail⟩ := h
        unfold memchr
        by_cases hx : x = c
        · rw [if_pos hx, if_pos hx]
        · rw [if_neg hx, if_neg hx, ih xs ys htail]

/-- C10: a failing `proc_parse_next` leaves the buffer, the valid length and
the cursor exactly as they were, and an immediately repeated call fails the
same way, returning the very same struct. -/
theorem proc_parse_next_err_frame (pi pi' : ProcParseInfo)
    (h : proc_parse_next pi = .err pi') :
    pi'.buf = pi.buf ∧ pi'.data_size = pi.data_size ∧ pi'.next = pi.next ∧
    proc_parse_next pi' = .err pi' := by
  unfold proc_parse_next at h
  cases hcore : parse_core pi.buf pi.data_size pi.next with
  | eof => rw [hcore] at h; simp at h
  | ok a b c nm nx => rw [hcore] at h; simp at h
  | err vals nm =>
    rw [hcore] at h
    simp only [ParseStep.err.injEq] at h
    obtain rfl := h.symm
    obtain ⟨hb, hd, hn⟩ := applyUpd_frame pi vals nm
    refine ⟨hb, hd, hn, ?_⟩
    unfold proc_parse_next
    rw [hb, hd, hn, hcore]
    show ParseStep.err (applyUpd (applyUpd pi vals nm) vals nm) =
      ParseStep.err (applyUpd pi vals nm)
    rw [applyUpd_idem]

/-- C4 (amended): the record extraction step reads the buffer only through
(a) its first `data_size` bytes, (b) the byte at offset `data_size` (the
newline-terminator check can touch it), and (c) the NUL-terminated C string at
the cursor (the `sscanf` pattern match).  Two buffers agreeing on those three
views give identical results. -/
theorem parse_core_access (b1 b2 : List Char) (ds pos : Nat)
    (h1 : b1.take ds = b2.take ds)
    (h2 : b1[ds]? = b2[ds]?)
    (h3 : cstr (b1.drop pos) = cstr (b2.drop pos)) :
    parse_core b1 ds pos = parse_core b2 ds pos := by
  have hgetk : ∀ k, k ≤ ds → b1[k]? = b2[k]? := by
    intro k hk
    rcases Nat.lt_or_ge k ds with hlt | hge
    · rw [← List.getElem?_take_of_lt hlt, h1, List.getElem?_take_of_lt hlt]
    · have : k = ds := by omega
      subst this
      exact h2
  have hdrop_take : ∀ q, q < ds → (b1.drop q).take (ds - q) = (b2.drop q).take (ds - q) := by
    intro q hq
    rw [List.take_drop, List.take_drop, show q + (ds - q) = ds from by omega, h1]
  unfold parse_core
  by_cases hp : ds ≤ pos
  · rw [if_pos hp, if_pos hp]
  · rw [if_neg hp, if_neg hp, h3]
    have hm1 : memchr (b1.drop pos) '"' (ds - pos) = memchr (b2.drop pos) '"' (ds - pos) :=
      memchr_take_congr _ _ _ _ (hdrop_take pos (by omega))
    rw [hm1]
    cases hss : sscanf_mtd (cstr (b2.drop pos)) with
    | nil => rfl
    | cons a vs =>
      cases vs with
      | nil => rfl
      | cons b vs2 =>
        cases vs2 with
        | nil => rfl
        | cons c vs3 =>
          cases vs3 with
          | cons d vs4 => rfl
          | nil =>
            cases hmem : memchr (b2.drop pos) '"' (ds - pos) with
            | none => rfl
            | some i =>
              simp only [hmem]
              by_cases hdp : ds ≤ pos + i + 1
              · rw [if_pos hdp, if_pos hdp]
              · rw [if_neg hdp, if_neg hdp]
                have hm2eq : memchr (b1.drop (pos + i + 1)) '"' (ds - (pos + i + 1)) =
                    memchr (b2.drop (pos + i + 1)) '"' (ds - (pos + i + 1)) :=
                  memchr_take_congr _ _ _ _ (hdrop_take _ (by omega))
                rw [hm2eq]
                cases hm2 : memchr (b2.drop (pos + i + 1)) '"' (ds - (pos + i + 1)) with
                | none => rfl
                | some j =>
                  simp only [hm2]
                  have hj : j < ds - (pos + i + 1) := memchr_lt _ _ _ _ hm2
                  by_cases hds1 : ds ≤ pos + i + 1 + j
                  · rw [if_pos hds1, if_pos hds1]
                  · rw [if_neg hds1, if_neg hds1]
                    by_cases hmn : MTD_NAME_MAX < j
                    · rw [if_pos hmn, if_pos hmn]
                    · rw [if_neg hmn, if_neg hmn]
                      have hnmEq : (b1.drop (pos + i + 1)).take j =
                          (b2.drop (pos + i + 1)).take j := by
                        have hmin : min j (ds - (pos + i + 1)) = j := by omega
                        rw [show (b1.drop (pos + i + 1)).take j =
                            ((b1.drop (pos + i + 1)).take (ds - (pos + i + 1))).take j from by
                          rw [List.take_take, hmin]]
                        rw [show (b2.drop (pos + i + 1)).take j =
                            ((b2.drop (pos + i + 1)).take (ds - (pos + i + 1))).take j from by
                          rw [List.take_take, hmin]]
                        rw [hdrop_take _ (by omega)]
                      rw [hnmEq]
                      have hhd : (b1.drop (pos + i + 1 + j + 1)).head? =
                          (b2.drop (pos + i + 1 + j + 1)).head? := by
                        rw [List.head?_drop, List.head?_drop, hgetk _ (by omega)]
                      rw [hhd]

/-- Inversion of a successful validation stage: the three sanity checks passed
on the descriptor's fields and the erase-unit count is the rounded-down
quotient of the validated size by the validated erase-unit size. -/
theorem geometry_validate_ok_inv (ui : MtdInfoUser) (m2 m : MtdDevInfo)
    (h : geometry_validate ui m2 = .ok m) :
    0 < m.min_io_size ∧ 0 < m.eb_size ∧ m.min_io_size ≤ m.eb_size ∧ 0 < m.size ∧
      m.eb_size ≤ m.size ∧
      m.eb_cnt = ((m.size.toNat / m.eb_size.toNat : Nat) : Int) ∧
      m.subpage_size = m.min_io_size := by
  unfold geometry_validate at h
  dsimp only at h
  split at h
  · exact Except.noConfusion h
  rename_i hmin
  split at h
  · exact Except.noConfusion h
  rename_i heb
  split at h
  · exact Except.noConfusion h
  rename_i hsz
  split at h
  · exact Except.noConfusion h
  split at h
  · exact Except.noConfusion h
  rename_i ts hts
  simp only [Except.ok.injEq] at h
  subst h
  push_neg at hmin heb hsz
  refine ⟨by simp; omega, by simp; omega, by simp; omega, by simp; omega,
    by simp; omega, by simp, by simp⟩

/-- Inversion of a successful geometry phase. -/
theorem geometry_phase_ok_inv (env : SysEnv) (g m : MtdDevInfo)
    (h : geometry_phase env g = .ok m) :
    0 < m.min_io_size ∧ 0 < m.eb_size ∧ m.min_io_size ≤ m.eb_size ∧ 0 < m.size ∧
      m.eb_size ≤ m.size ∧
      m.eb_cnt = ((m.size.toNat / m.eb_size.toNat : Nat) : Int) ∧
      m.subpage_size = m.min_io_size := by
  unfold geometry_phase at h
  cases hc : geometry_checks env g with
  | error e => rw [hc] at h; exact Except.noConfusion h
  | ok mui =>
    rw [hc] at h
    exact geometry_validate_ok_inv mui.2 mui.1 m h

/-- Opening a scan on a rendered listing succeeds and positions the cursor
right after the header. -/
theorem proc_parse_start_render (g : ProcParseInfo) (recs : List ProcLine) :
    proc_parse_start g (renderListing recs) (renderListing recs).length =
      some { g with
        buf := renderListing recs
        data_size := (renderListing recs).length
        next := PROC_MTD_FIRST_LEN } := by
  unfold proc_parse_start
  rw [if_neg (by simp [renderListing, PROC_MTD_FIRST_LEN])]
  rw [if_neg (by
    rw [show (renderListing recs).take PROC_MTD_FIRST_LEN = PROC_MTD_FIRST from
      List.take_left' rfl]
    simp)]

/-- The capability probe returns a negative value whenever the layout query
fails (`EOPNOTSUPP` included). -/
theorem legacy_get_mtd_oobavail_fail (env : SysEnv) (f : IoctlFail)
    (hecc : env.ecc = .fail f) : legacy_get_mtd_oobavail env = -1 := by
  unfold legacy_get_mtd_oobavail
  split
  · rfl
  split
  · rfl
  split
  · rfl
  rw [hecc]

/-- The capability probe returns the (int-converted) `oobavail` field when its
open, stat, character check and the layout query all succeed. -/
theorem legacy_get_mtd_oobavail_ok (env : SysEnv) (v : Nat)
    (hpo : env.probe_open_ok = true) (hpf : env.probe_fstat_ok = true)
    (hpc : env.probe_is_chr = true) (hecc : env.ecc = .ok v) :
    legacy_get_mtd_oobavail env = toInt32 v := by
  unfold legacy_get_mtd_oobavail
  rw [if_neg (by simp [hpo]), if_neg (by simp [hpf]), if_neg (by simp [hpc]), hecc]

/-- Neither stage of the geometry phase reads the probe fields or the layout
query result. -/
theorem geometry_phase_probe_irrel (env : SysEnv) (g : MtdDevInfo)
    (po pf pc : Bool) (e : EccResult) :
    geometry_phase
      { env with probe_open_ok := po, probe_fstat_ok := pf, probe_is_chr := pc,
                 ecc := e } g = geometry_phase env g := by
  cases env
  rfl

/-- Forward evaluation of the opening checks when everything the claims fix is
answered positively. -/
theorem geometry_checks_ok (env : SysEnv) (g : MtdDevInfo) (ui : MtdInfoUser)
    (hopen : env.open_ok = true) (hstat : env.fstat_ok = true)
    (hchr : env.is_chr = true) (hmaj : env.rdev_major = MTD_DEV_MAJOR)
    (hui : env.memgetinfo = some ui) (hbb : ¬ env.badblock = some .other) :
    geometry_checks env g =
      .ok ({ zeroDevInfo with
        major := env.rdev_major
        minor := env.rdev_minor
        mtd_num := ((env.rdev_minor / 2 : Nat) : Int)
        bb_allowed := env.badblock = none }, ui) := by
  unfold geometry_checks
  rw [if_neg (by simp [hopen]), if_neg (by simp [hstat]), if_neg (by simp [hchr])]
  dsimp only
  rw [if_neg (by simp [hmaj]), hui]
  dsimp only
  rw [if_neg hbb]

/-- Forward evaluation of the validation stage on insane geometry: each of the
three conditions, tested in the order of the source, yields its own failure
site, with the struct already carrying the converted fields. -/
theorem geometry_validate_insane (ui : MtdInfoUser) (m2 : MtdDevInfo)
    (hbad : toInt32 ui.writesize ≤ 0 ∨
      (toInt32 ui.erasesize ≤ 0 ∨ toInt32 ui.erasesize < toInt32 ui.writesize) ∨
      ((ui.usize : Int) ≤ 0 ∨ (ui.usize : Int) < toInt32 ui.erasesize)) :
    geometry_validate ui m2 =
      .error
        (if toInt32 ui.writesize ≤ 0 then .insaneMinIo
         else if toInt32 ui.erasesize ≤ 0 ∨ toInt32 ui.erasesize < toInt32 ui.writesize
           then .insaneEb
         else .insaneSize,
         { m2 with
           dtype := ui.utype
           size := (ui.usize : Int)
           eb_size := toInt32 ui.erasesize
           min_io_size := toInt32 ui.writesize
           oob_size := toInt32 ui.oobsize }) := by
  unfold geometry_validate
  dsimp only
  by_cases h1 : toInt32 ui.writesize ≤ 0
  · rw [if_pos h1, if_pos h1]
  · rw [if_neg h1, if_neg h1]
    by_cases h2 : toInt32 ui.erasesize ≤ 0 ∨ toInt32 ui.erasesize < toInt32 ui.writesize
    · rw [if_pos h2, if_pos h2]
    · rw [if_neg h2, if_neg h2]
      have h3 : (ui.usize : Int) ≤ 0 ∨ (ui.usize : Int) < toInt32 ui.erasesize := by
        tauto
      rw [if_pos h3]

/-- An uninitialised stack `struct proc_parse_info` with all-zero scalar garbage. -/
def gpi0 : ProcParseInfo where
  mtd_num := 0
  size := 0
  eb_size := 0
  name := []
  buf := []
  data_size := 0
  next := 0

/-- A listing whose one device line does not match the `mtd%d: %llx %x` pattern. -/
def badListing : List Char := PROC_MTD_FIRST ++ ("xyz\n").data

/-- The cursor right after the header of `badListing`. -/
def piBad : ProcParseInfo :=
  { gpi0 with
    buf := badListing
    data_size := badListing.length
    next := PROC_MTD_FIRST_LEN }

/-- On the malformed line, `proc_parse_next` fails and returns the cursor
unchanged: the failing state is a fixed point. -/
theorem piBad_fix : proc_parse_next piBad = .err piBad := by decide

/-- The `legacy_dev_present` loop never returns on the malformed listing when
the sought number differs from the (stale) `mtd_num` field. -/
theorem dev_present_loop_piBad : ∀ fuel : Nat, dev_present_loop 1 fuel piBad = none := by
  intro fuel
  induction fuel with
  | zero => rfl
  | succ f ih =>
    unfold dev_present_loop
    rw [piBad_fix]
    show (if piBad.mtd_num = (1 : Int) then some ((1 : Int), false)
      else dev_present_loop 1 f piBad) = none
    rw [if_neg (by decide)]
    exact ih

/-- The `legacy_mtd_get_info` loop never returns on the malformed listing. -/
theorem get_info_loop_piBad : ∀ (fuel : Nat) (info : MtdInfo),
    get_info_loop fuel piBad info = none := by
  intro fuel
  induction fuel with
  | zero => intro info; rfl
  | succ f ih =>
    intro info
    unfold get_info_loop
    rw [piBad_fix]
    show get_info_loop f piBad (get_info_step info piBad.mtd_num) = none
    exact ih _

/-- C1: the scan-driven operations do NOT terminate on every listing: on a
listing whose device line fails the pattern match, the `while
(proc_parse_next(&pi))` loops of `legacy_dev_present` and `legacy_mtd_get_info`
treat the nonzero error return as "continue", re-parse the same unchanged
offset, and never return — for every fuel bound the run is still unfinished.
(The parse failure is retried forever instead of ending the operation.) -/
theorem c1_scan_ops_diverge_on_malformed_line : ∀ fuel : Nat,
    legacy_dev_present gpi0 badListing badListing.length 1 fuel = none ∧
    legacy_mtd_get_info gpi0 badListing badListing.length
      { mtd_dev_cnt := 0, lowest_mtd_num := 0, highest_mtd_num := 0 } fuel = none := by
  intro fuel
  constructor
  · unfold legacy_dev_present
    rw [show proc_parse_start gpi0 badListing badListing.length = some piBad from
      by decide]
    exact dev_present_loop_piBad fuel
  · unfold legacy_mtd_get_info
    rw [show proc_parse_start gpi0 badListing badListing.length = some piBad from
      by decide]
    show (get_info_loop fuel piBad
      { mtd_dev_cnt := 0, lowest_mtd_num := INT_MAX, highest_mtd_num := 0 }).map
        (fun r => ((0 : Int), r.1, r.2)) = none
    rw [get_info_loop_piBad fuel _]
    rfl

/-- C10: when `proc_parse_next` fails, the cursor's buffer, valid length and
offset are exactly as before the call, and an immediately repeated call fails
in the same way at the same offset, producing the very same struct. -/
theorem c10_parse_failure_frame (pi pi' : ProcParseInfo)
    (h : proc_parse_next pi = .err pi') :
    pi'.buf = pi.buf ∧ pi'.data_size = pi.data_size ∧ pi'.next = pi.next ∧
    proc_parse_next pi' = .err pi' :=
  proc_parse_next_err_frame pi pi' h

/-- Witness for C10 at the concrete failing cursor of the malformed listing. -/
theorem c10_parse_failure_frame_witness :
    piBad.buf = piBad.buf ∧ piBad.data_size = piBad.data_size ∧
    piBad.next = piBad.next ∧ proc_parse_next piBad = .err piBad :=
  c10_parse_failure_frame piBad piBad (by decide)

/-- A well-formed one-device listing line (`mtd0: 100000 20000 "rootfs"`). -/
def rec0 : ProcLine :=
  { numd := ("0").data, sized := ("100000").data, ebd := ("20000").data,
    name := ("rootfs").data }

/-- A well-formed one-device listing. -/
def listing0 : List Char := renderListing [rec0]

/-- A listing whose one line has its closing quote as the very last valid byte
(no trailing newline inside the valid data). -/
def noTermLine : List Char := PROC_MTD_FIRST ++ ("mtd0: 100 200 \"a\"").data

/-- `noTermLine` with a newline in the allocation right after the valid data. -/
def allocNl : List Char := noTermLine ++ ('\n' :: [])

/-- `noTermLine` with a junk byte in the allocation right after the valid data. -/
def allocX : List Char := noTermLine ++ ('A' :: [])

/-- C4 counterexample: two allocations agreeing on every valid byte (the first
`data_size` bytes) but differing at offset `data_size` give different
`proc_parse_next` results — the newline-terminator check `p1[1]` reads one byte
past the valid data, so not every read is at an offset below `data_size`. -/
theorem c4_counterexample :
    allocNl.take noTermLine.length = allocX.take noTermLine.length ∧
    ¬ parse_core allocNl noTermLine.length PROC_MTD_FIRST_LEN =
        parse_core allocX noTermLine.length PROC_MTD_FIRST_LEN := by decide

/-- Buffer sharing valid data and the byte at `data_size` with `allocQ`;
differences are hidden behind a NUL, outside every read the scanner makes. -/
def allocP : List Char := listing0 ++ (NUL :: 'P' :: [])

/-- See `allocP`. -/
def allocQ : List Char := listing0 ++ (NUL :: 'Q' :: [])

/-- Witness for C4 (amended) at concrete buffers that differ only beyond the
scanner's read footprint. -/
theorem c4_access_witness :
    parse_core allocP listing0.length PROC_MTD_FIRST_LEN =
      parse_core allocQ listing0.length PROC_MTD_FIRST_LEN :=
  parse_core_access allocP allocQ listing0.length PROC_MTD_FIRST_LEN
    (by decide) (by decide) (by decide)

/-- C5 counterexample: the early-success exit of `legacy_dev_present` (device
found) returns 1 with the scan buffer still allocated — contradicting "the
buffer is released on every exit path". -/
theorem c5_counterexample :
    legacy_dev_present gpi0 listing0 listing0.length 0 2 = some (1, false) := by
  decide

/-- C5 (amended): the scan buffer is released exactly on the exits that do not
return early with success — header-validation failure and end-of-data free it,
the early-success return of `legacy_dev_present` leaks it (and record-parse
failures never return at all); the device node, in contrast, is closed on every
exit of `legacy_get_dev_info` that returns. -/
theorem c5_release_behavior :
    (∀ (g : ProcParseInfo) (alloc : List Char) (ds : Nat) (mtd_num : Int)
        (fuel : Nat) (r : Int) (fr : Bool),
      legacy_dev_present g alloc ds mtd_num fuel = some (r, fr) →
      (fr = true ↔ ¬ r = 1)) ∧
    (∀ (env : SysEnv) (g_mtd : MtdDevInfo) (g_pi : ProcParseInfo)
        (alloc : List Char) (ds fuel : Nat) (o : DevOutcome),
      legacy_get_dev_info env g_mtd g_pi alloc ds fuel = some o →
      o.fd_closed = true) := by
  constructor
  · intro g alloc ds mtd_num fuel r fr h
    unfold legacy_dev_present at h
    cases hs : proc_parse_start g alloc ds with
    | none =>
      simp only [hs] at h
      have h2 := Option.some.inj h
      have hr : r = -1 := (congrArg Prod.fst h2).symm
      have hf : fr = true := (congrArg Prod.snd h2).symm
      subst hr
      subst hf
      simp
    | some pi =>
      simp only [hs] at h
      exact dev_present_loop_freed mtd_num fuel pi r fr h
  · intro env g_mtd g_pi alloc ds fuel o h
    unfold legacy_get_dev_info at h
    cases hg : geometry_phase env g_mtd with
    | error em =>
      simp only [hg] at h
      obtain rfl := Option.some.inj h
      rfl
    | ok m =>
      simp only [hg] at h
      cases hp : proc_parse_start g_pi alloc ds with
      | none =>
        simp only [hp] at h
        obtain rfl := Option.some.inj h
        rfl
      | some pi =>
        simp only [hp] at h
        exact (name_loop_some _ fuel pi o h).1

/-- Witness for C5 (amended) at concrete runs. -/
theorem c5_release_behavior_witness : (true = true ↔ ¬ (0 : Int) = 1) :=
  c5_release_behavior.1 gpi0 listing0 listing0.length 5 2 0 true (by decide)

/-- C2: on every well-formed listing, `legacy_mtd_get_info` (starting from the
caller's zeroed count and high mark) succeeds, frees the buffer, and returns a
summary whose count is the number of device lines after the header and whose
low/high marks are the true minimum and maximum of the parsed device numbers;
on a header-only listing the count is zero and the low mark keeps its `INT_MAX`
sentinel, which is larger than every legal device number. -/
theorem c2_get_info_summary (recs : List ProcLine)
    (hwf : ∀ L ∈ recs, wfLine L) (g : ProcParseInfo) (info0 : MtdInfo)
    (hcnt : info0.mtd_dev_cnt = 0) (hhi : info0.highest_mtd_num = 0)
    (fuel : Nat) (hfuel : recs.length < fuel) :
    ∃ info : MtdInfo,
      legacy_mtd_get_info g (renderListing recs) (renderListing recs).length
          info0 fuel = some (0, info, true) ∧
      info.mtd_dev_cnt = recs.length ∧
      (recs = [] → info.mtd_dev_cnt = 0 ∧ info.lowest_mtd_num = INT_MAX) ∧
      (¬ recs = [] →
        info.lowest_mtd_num ∈ recs.map lineNum ∧
        (∀ n ∈ recs.map lineNum, info.lowest_mtd_num ≤ n) ∧
        info.highest_mtd_num ∈ recs.map lineNum ∧
        (∀ n ∈ recs.map lineNum, n ≤ info.highest_mtd_num)) ∧
      (∀ n ∈ recs.map lineNum, n < INT_MAX) := by
  have hlegal : ∀ n ∈ recs.map lineNum, n < INT_MAX := by
    intro n hn
    simp only [List.mem_map] at hn
    obtain ⟨L, hL, rfl⟩ := hn
    exact (hwf L hL).2.2.2
  refine ⟨infoFold { info0 with lowest_mtd_num := INT_MAX } recs, ?_, ?_, ?_, ?_,
    hlegal⟩
  · unfold legacy_mtd_get_info
    rw [proc_parse_start_render]
    have hloop := get_info_loop_render recs PROC_MTD_FIRST { g with buf := renderListing recs, data_size := (renderListing recs).length, next := PROC_MTD_FIRST_LEN } { info0 with lowest_mtd_num := INT_MAX } fuel hwf rfl rfl rfl hfuel
    show (get_info_loop fuel { g with buf := renderListing recs, data_size := (renderListing recs).length, next := PROC_MTD_FIRST_LEN } { info0 with lowest_mtd_num := INT_MAX }).map (fun r => ((0 : Int), r.1, r.2)) = some (0, infoFold { info0 with lowest_mtd_num := INT_MAX } recs, true)
    rw [hloop]
    rfl
  · rw [show (infoFold { info0 with lowest_mtd_num := INT_MAX } recs).mtd_dev_cnt = ({ info0 with lowest_mtd_num := INT_MAX } : MtdInfo).mtd_dev_cnt + recs.length from infoFold_cnt recs _]
    simp [hcnt]
  · intro hrec
    subst hrec
    constructor
    · rw [infoFold_cnt]; simp [hcnt]
    · simp [infoFold]
  · intro hne
    obtain ⟨hlmem, hlle, hlall⟩ :=
      infoFold_lowest recs { info0 with lowest_mtd_num := INT_MAX }
    obtain ⟨hhmem, hhle, hhall⟩ :=
      infoFold_highest recs { info0 with lowest_mtd_num := INT_MAX }
    obtain ⟨L0, hL0⟩ := List.exists_mem_of_ne_nil recs hne
    have hL0m : lineNum L0 ∈ recs.map lineNum := List.mem_map_of_mem _ hL0
    refine ⟨?_, hlall, ?_, hhall⟩
    · rcases hlmem with he | hm
      · exfalso
        have h1 := hlall _ hL0m
        have h2 := hlegal _ hL0m
        rw [he] at h1
        simp at h1
        omega
      · exact hm
    · rcases hhmem with he | hm
      · have h1 : (0 : Int) ≤ lineNum L0 := Int.natCast_nonneg _
        have h2 := hhall _ hL0m
        rw [he] at h2
        simp only [hhi] at h2
        have : lineNum L0 = (infoFold { info0 with lowest_mtd_num := INT_MAX }
            recs).highest_mtd_num := by
          rw [he]
          simp only [hhi]
          omega
        rw [← this]
        exact hL0m
      · exact hm

/-- Witness for C2 at the concrete one-device listing. -/
theorem c2_get_info_summary_witness :
    ∃ info : MtdInfo,
      legacy_mtd_get_info gpi0 (renderListing [rec0]) (renderListing [rec0]).length
          { mtd_dev_cnt := 0, lowest_mtd_num := 0, highest_mtd_num := 0 } 2
        = some (0, info, true) ∧
      info.mtd_dev_cnt = ([rec0] : List ProcLine).length ∧
      (([rec0] : List ProcLine) = [] →
        info.mtd_dev_cnt = 0 ∧ info.lowest_mtd_num = INT_MAX) ∧
      (¬ ([rec0] : List ProcLine) = [] →
        info.lowest_mtd_num ∈ ([rec0] : List ProcLine).map lineNum ∧
        (∀ n ∈ ([rec0] : List ProcLine).map lineNum, info.lowest_mtd_num ≤ n) ∧
        info.highest_mtd_num ∈ ([rec0] : List ProcLine).map lineNum ∧
        (∀ n ∈ ([rec0] : List ProcLine).map lineNum, n ≤ info.highest_mtd_num)) ∧
      (∀ n ∈ ([rec0] : List ProcLine).map lineNum, n < INT_MAX) :=
  c2_get_info_summary [rec0] (by decide) gpi0
    { mtd_dev_cnt := 0, lowest_mtd_num := 0, highest_mtd_num := 0 } rfl rfl 2
    (by decide)

/-- `MEMGETINFO` response with size `0x30000` and erase-unit size `0x20000`
(size is not a multiple of the erase-unit size), NOR type, writable. -/
def ui0 : MtdInfoUser where
  utype := 3
  flags := 1024
  usize := 196608
  erasesize := 131072
  writesize := 2048
  oobsize := 0

/-- A fully cooperating system for one descriptor query: char device with the
MTD major, `ui0` geometry, bad-block query succeeding, layout query
unsupported. -/
def env0 : SysEnv where
  open_ok := true
  fstat_ok := true
  is_chr := true
  rdev_major := 90
  rdev_minor := 0
  memgetinfo := some ui0
  badblock := none
  probe_open_ok := true
  probe_fstat_ok := true
  probe_is_chr := true
  ecc := .fail .eopnotsupp

/-- The descriptor `legacy_get_dev_info` assembles under `env0` and
`listing0`. -/
def out0 : DevOutcome where
  ret := 0
  err := none
  fd_closed := true
  mtd :=
    { mtd_num := 0
      major := 90
      minor := 0
      dtype := 3
      type_str := ("nor").data
      size := 196608
      eb_cnt := 1
      eb_size := 131072
      min_io_size := 2048
      subpage_size := 2048
      oob_size := 0
      oobavail := 0
      name := ("rootfs").data
      writable := true
      bb_allowed := true }

/-- C3 counterexample: a successfully returned descriptor whose total size is
NOT an exact multiple of its erase-unit size — the code computes
`eb_cnt = size / eb_size` by truncating division and never checks exactness. -/
theorem c3_counterexample :
    legacy_get_dev_info env0 zeroDevInfo gpi0 listing0 listing0.length 2
        = some out0 ∧
    out0.ret = 0 ∧
    ¬ out0.mtd.eb_size * out0.mtd.eb_cnt = out0.mtd.size := by decide

/-- C3 (amended): for every successfully returned descriptor, the erase-unit
count is total size divided by erase-unit size rounded DOWN — the erase units
cover at most the total size and one more erase unit would overshoot it — but
the division need not be exact. -/
theorem c3_eb_cnt_floor (env : SysEnv) (g_mtd : MtdDevInfo)
    (g_pi : ProcParseInfo) (alloc : List Char) (ds fuel : Nat) (o : DevOutcome)
    (h : legacy_get_dev_info env g_mtd g_pi alloc ds fuel = some o)
    (hr : o.ret = 0) :
    0 < o.mtd.eb_size ∧ o.mtd.eb_size ≤ o.mtd.size ∧
    o.mtd.eb_size * o.mtd.eb_cnt ≤ o.mtd.size ∧
    o.mtd.size < o.mtd.eb_size * o.mtd.eb_cnt + o.mtd.eb_size := by
  unfold legacy_get_dev_info at h
  cases hg : geometry_phase env g_mtd with
  | error em =>
    rw [hg] at h
    simp only [Option.some.injEq] at h
    obtain rfl := h
    simp at hr
  | ok m =>
    rw [hg] at h
    cases hp : proc_parse_start g_pi alloc ds with
    | none =>
      simp only [hp] at h
      simp only [Option.some.injEq] at h
      obtain rfl := h
      simp at hr
    | some pi =>
      simp only [hp] at h
      obtain ⟨hfd, hoob, hebc, hebs, hsz, hnum, hret⟩ := name_loop_some _ fuel pi o h
      obtain ⟨hm1, hm2, hm3, hm4, hm5, hm6, hm7⟩ := geometry_phase_ok_inv env g_mtd m hg
      simp only at hebc hebs hsz
      rw [hebc, hebs, hsz]
      have hebpos : 0 < m.eb_size.toNat := by omega
      have hq := Nat.div_add_mod m.size.toNat m.eb_size.toNat
      have hmod : m.size.toNat % m.eb_size.toNat < m.eb_size.toNat :=
        Nat.mod_lt _ hebpos
      have key : m.eb_size.toNat * (m.size.toNat / m.eb_size.toNat) ≤ m.size.toNat ∧
          m.size.toNat <
            m.eb_size.toNat * (m.size.toNat / m.eb_size.toNat) + m.eb_size.toNat := by
        generalize ht : m.eb_size.toNat * (m.size.toNat / m.eb_size.toNat) = t at hq ⊢
        omega
      have h1 : ((m.eb_size.toNat * (m.size.toNat / m.eb_size.toNat) : Nat) : Int)
          ≤ ((m.size.toNat : Nat) : Int) := Int.ofNat_le.mpr key.1
      have h2 : ((m.size.toNat : Nat) : Int) <
          ((m.eb_size.toNat * (m.size.toNat / m.eb_size.toNat) +
            m.eb_size.toNat : Nat) : Int) := Int.ofNat_lt.mpr key.2
      rw [Nat.cast_mul] at h1
      rw [Nat.cast_add, Nat.cast_mul] at h2
      rw [Int.toNat_of_nonneg (by omega : (0 : Int) ≤ m.size),
        Int.toNat_of_nonneg (by omega : (0 : Int) ≤ m.eb_size)] at h1 h2
      rw [← hm6] at h1 h2
      exact ⟨hm2, hm5, h1, h2⟩

/-- Witness for C3 (amended) at the concrete assembled descriptor. -/
theorem c3_eb_cnt_floor_witness :
    0 < out0.mtd.eb_size ∧ out0.mtd.eb_size ≤ out0.mtd.size ∧
    out0.mtd.eb_size * out0.mtd.eb_cnt ≤ out0.mtd.size ∧
    out0.mtd.size < out0.mtd.eb_size * out0.mtd.eb_cnt + out0.mtd.eb_size :=
  c3_eb_cnt_floor env0 zeroDevInfo gpi0 listing0 listing0.length 2 out0
    (by decide) (by decide)

/-- A geometry-phase failure surfaces directly as the -1 outcome, node closed. -/
theorem legacy_get_dev_info_geom_err (env : SysEnv) (g_mtd : MtdDevInfo)
    (g_pi : ProcParseInfo) (alloc : List Char) (ds fuel : Nat) (e : ErrSite)
    (me : MtdDevInfo) (hg : geometry_phase env g_mtd = .error (e, me)) :
    legacy_get_dev_info env g_mtd g_pi alloc ds fuel =
      some { ret := -1, err := some e, fd_closed := true, mtd := me } := by
  unfold legacy_get_dev_info
  rw [hg]

/-- C6: when the geometry query reports a non-positive minimum write unit, or
an erase-unit size that is non-positive or smaller than the minimum write
unit, or a total size that is non-positive or smaller than the erase-unit
size, descriptor assembly fails with the corresponding distinct error — tested
in the order of the source — closes the device node before returning, and
returns -1 (no descriptor). -/
theorem c6_insane_geometry_rejected (env : SysEnv) (g_mtd : MtdDevInfo)
    (g_pi : ProcParseInfo) (alloc : List Char) (ds fuel : Nat) (ui : MtdInfoUser)
    (hopen : env.open_ok = true) (hstat : env.fstat_ok = true)
    (hchr : env.is_chr = true) (hmaj : env.rdev_major = MTD_DEV_MAJOR)
    (hui : env.memgetinfo = some ui) (hbb : ¬ env.badblock = some .other)
    (hbad : toInt32 ui.writesize ≤ 0 ∨
      (toInt32 ui.erasesize ≤ 0 ∨ toInt32 ui.erasesize < toInt32 ui.writesize) ∨
      ((ui.usize : Int) ≤ 0 ∨ (ui.usize : Int) < toInt32 ui.erasesize)) :
    ∃ me : MtdDevInfo,
      legacy_get_dev_info env g_mtd g_pi alloc ds fuel =
        some { ret := -1
               err := some (if toInt32 ui.writesize ≤ 0 then .insaneMinIo
                 else if toInt32 ui.erasesize ≤ 0 ∨
                     toInt32 ui.erasesize < toInt32 ui.writesize then .insaneEb
                 else .insaneSize)
               fd_closed := true
               mtd := me } := by
  have hchecks := geometry_checks_ok env g_mtd ui hopen hstat hchr hmaj hui hbb
  obtain ⟨me, hg⟩ : ∃ me : MtdDevInfo, geometry_phase env g_mtd =
      .error ((if toInt32 ui.writesize ≤ 0 then ErrSite.insaneMinIo
        else if toInt32 ui.erasesize ≤ 0 ∨
            toInt32 ui.erasesize < toInt32 ui.writesize then ErrSite.insaneEb
        else ErrSite.insaneSize), me) := by
    refine ⟨?_, ?_⟩
    case _ => exact { zeroDevInfo with major := env.rdev_major, minor := env.rdev_minor, mtd_num := ((env.rdev_minor / 2 : Nat) : Int), bb_allowed := decide (env.badblock = none), dtype := ui.utype, size := (ui.usize : Int), eb_size := toInt32 ui.erasesize, min_io_size := toInt32 ui.writesize, oob_size := toInt32 ui.oobsize }
    unfold geometry_phase
    rw [hchecks]
    show geometry_validate ui _ = _
    exact geometry_validate_insane ui _ hbad
  exact ⟨me, legacy_get_dev_info_geom_err env g_mtd g_pi alloc ds fuel _ me hg⟩

/-- `MEMGETINFO` response with an insane minimum write unit of 0. -/
def uiBad : MtdInfoUser where
  utype := 3
  flags := 1024
  usize := 196608
  erasesize := 131072
  writesize := 0
  oobsize := 0

/-- `env0` with the insane geometry `uiBad`. -/
def envBad : SysEnv where
  open_ok := true
  fstat_ok := true
  is_chr := true
  rdev_major := 90
  rdev_minor := 0
  memgetinfo := some uiBad
  badblock := none
  probe_open_ok := true
  probe_fstat_ok := true
  probe_is_chr := true
  ecc := .fail .eopnotsupp

/-- Witness for C6 at a device reporting a zero minimum write unit. -/
theorem c6_insane_geometry_rejected_witness :
    ∃ me : MtdDevInfo,
      legacy_get_dev_info envBad zeroDevInfo gpi0 listing0 listing0.length 2 =
        some { ret := -1
               err := some (if toInt32 uiBad.writesize ≤ 0 then .insaneMinIo
                 else if toInt32 uiBad.erasesize ≤ 0 ∨
                     toInt32 uiBad.erasesize < toInt32 uiBad.writesize then .insaneEb
                 else .insaneSize)
               fd_closed := true
               mtd := me } :=
  c6_insane_geometry_rejected envBad zeroDevInfo gpi0 listing0 listing0.length 2
    uiBad rfl rfl rfl rfl rfl (by decide) (by decide)

/-- A line-shaped text whose quoted name never closes: `mtd<nd>: <sd> <ed> "<tail>`. -/
def renderNoClose (nd sd ed tail : List Char) : List Char :=
  lineHead { numd := nd, sized := sd, ebd := ed, name := [] } ++ '"' :: tail

/-- The scanning core rejects a line whose closing quote is missing from the
valid data (whether or not anything follows the opening quote). -/
theorem parse_core_noclose (pre nd sd ed tail : List Char)
    (h1 : ¬ nd = []) (h2 : ∀ c ∈ nd, isDigitC c = true)
    (h3 : ¬ sd = []) (h4 : ∀ c ∈ sd, isHexC c = true)
    (h5 : ¬ ed = []) (h6 : ∀ c ∈ ed, isHexC c = true)
    (h7 : ∀ c ∈ tail, ¬ c = '"') :
    parse_core (pre ++ renderNoClose nd sd ed tail)
        (pre ++ renderNoClose nd sd ed tail).length pre.length =
      .err [(decVal nd : Int), (hexVal sd : Int), (hexVal ed : Int)] none := by
  have hshape0 : wfLineShape { numd := nd, sized := sd, ebd := ed, name := [] } :=
    ⟨h1, h2, h3, h4, h5, h6, by simp⟩
  have hH : 0 < (lineHead { numd := nd, sized := sd, ebd := ed, name := [] }).length := by
    simp [lineHead]
  have hT : (pre ++ renderNoClose nd sd ed tail).length =
      pre.length + ((lineHead { numd := nd, sized := sd, ebd := ed, name := [] }).length
        + 1 + tail.length) := by
    simp [renderNoClose]
    omega
  have hdrop0 : (pre ++ renderNoClose nd sd ed tail).drop pre.length =
      renderNoClose nd sd ed tail := List.drop_left' rfl
  have hnle0 : ¬ (pre ++ renderNoClose nd sd ed tail).length ≤ pre.length := by
    rw [hT]; omega
  have hshape : renderNoClose nd sd ed tail = 'm' :: 't' :: 'd' ::
      (nd ++ ':' :: ' ' :: (sd ++ ' ' :: (ed ++ ' ' :: '"' :: tail))) := by
    simp [renderNoClose, lineHead]
  have hss : sscanf_mtd (cstr ((pre ++ renderNoClose nd sd ed tail).drop pre.length)) =
      [(decVal nd : Int), (hexVal sd : Int), (hexVal ed : Int)] := by
    rw [hdrop0, hshape, cstr_line _ _ _ _ h2 h4 h6,
      sscanf_mtd_line _ _ _ _ h1 h2 h3 h4 h5 h6]
  have hm1 : memchr ((pre ++ renderNoClose nd sd ed tail).drop pre.length) '"'
      ((pre ++ renderNoClose nd sd ed tail).length - pre.length) =
      some (lineHead { numd := nd, sized := sd, ebd := ed, name := [] }).length := by
    rw [hdrop0]
    rw [show renderNoClose nd sd ed tail =
      lineHead { numd := nd, sized := sd, ebd := ed, name := [] } ++ '"' :: tail from rfl]
    exact memchr_app_first _ _ _ _ (lineHead_quote_free _ hshape0) (by simp [renderNoClose])
  unfold parse_core
  rw [if_neg hnle0, hss]
  by_cases htail : tail = []
  · subst htail
    simp only [hm1]
    rw [if_pos (by simp [renderNoClose]; omega)]
  · have htl : 0 < tail.length := List.length_pos.mpr htail
    have hnle1 : ¬ (pre ++ renderNoClose nd sd ed tail).length ≤
        pre.length + (lineHead { numd := nd, sized := sd, ebd := ed, name := [] }).length
          + 1 := by
      simp [renderNoClose]
      omega
    have hdropP : (pre ++ renderNoClose nd sd ed tail).drop
        (pre.length + (lineHead { numd := nd, sized := sd, ebd := ed, name := [] }).length
          + 1) = tail := by
      rw [show pre ++ renderNoClose nd sd ed tail =
          (pre ++ (lineHead { numd := nd, sized := sd, ebd := ed, name := [] } ++ ['"']))
            ++ tail from by simp [renderNoClose]]
      exact List.drop_left' (by simp; omega)
    have hm2 : memchr tail '"'
        ((pre ++ renderNoClose nd sd ed tail).length -
          (pre.length + (lineHead { numd := nd, sized := sd, ebd := ed, name := [] }).length
            + 1)) = none :=
      memchr_none_of _ _ _ (fun x hx => h7 x (List.mem_of_mem_take hx))
    simp only [hm1, hnle1, hdropP, hm2, if_false, ite_false]

/-- C7: malformed listings are rejected without partial results — a buffer
shorter than the header or not starting with the exact header makes
`proc_parse_start` fail before any record is produced; a line whose quoted name
exceeds `MTD_NAME_MAX` makes the record step fail without writing any
(truncated) name; a line whose closing quote is missing from the valid data
makes the record step fail. -/
theorem c7_malformed_rejected :
    (∀ (g : ProcParseInfo) (alloc : List Char) (ds : Nat),
      ds < PROC_MTD_FIRST_LEN ∨ ¬ alloc.take PROC_MTD_FIRST_LEN = PROC_MTD_FIRST →
      proc_parse_start g alloc ds = none) ∧
    (∀ (pre : List Char) (L : ProcLine) (suf : List Char),
      wfLineShape L → MTD_NAME_MAX < L.name.length →
      parse_core (pre ++ (renderLine L ++ suf))
          (pre ++ (renderLine L ++ suf)).length pre.length =
        .err [(decVal L.numd : Int), (hexVal L.sized : Int), (hexVal L.ebd : Int)]
          none) ∧
    (∀ (pre nd sd ed tail : List Char),
      ¬ nd = [] → (∀ c ∈ nd, isDigitC c = true) →
      ¬ sd = [] → (∀ c ∈ sd, isHexC c = true) →
      ¬ ed = [] → (∀ c ∈ ed, isHexC c = true) →
      (∀ c ∈ tail, ¬ c = '"') →
      parse_core (pre ++ renderNoClose nd sd ed tail)
          (pre ++ renderNoClose nd sd ed tail).length pre.length =
        .err [(decVal nd : Int), (hexVal sd : Int), (hexVal ed : Int)] none) := by
  refine ⟨?_, ?_, ?_⟩
  · intro g alloc ds h
    unfold proc_parse_start
    by_cases hlt : ds < PROC_MTD_FIRST_LEN
    · rw [if_pos hlt]
    · rw [if_neg hlt]
      rcases h with h | h
      · exact absurd h hlt
      · rw [if_pos h]
  · intro pre L suf hL hlong
    rw [parse_core_render pre L suf hL, if_neg (by omega)]
  · intro pre nd sd ed tail h1 h2 h3 h4 h5 h6 h7
    exact parse_core_noclose pre nd sd ed tail h1 h2 h3 h4 h5 h6 h7

/-- A line whose quoted name has 128 characters, one over the maximum. -/
def recLong : ProcLine :=
  { numd := ("0").data, sized := ("1").data, ebd := ("1").data,
    name := List.replicate 128 'z' }

/-- Witness for C7 at a headerless buffer, an overlong-name line and a line
missing its closing quote. -/
theorem c7_malformed_rejected_witness :
    proc_parse_start gpi0 ("bogus").data 5 = none ∧
    parse_core (PROC_MTD_FIRST ++ (renderLine recLong ++ []))
        (PROC_MTD_FIRST ++ (renderLine recLong ++ [])).length PROC_MTD_FIRST.length =
      .err [(decVal recLong.numd : Int), (hexVal recLong.sized : Int),
        (hexVal recLong.ebd : Int)] none ∧
    parse_core (PROC_MTD_FIRST ++ renderNoClose ("0").data ("1").data ("1").data
        ("abc").data)
        (PROC_MTD_FIRST ++ renderNoClose ("0").data ("1").data ("1").data
          ("abc").data).length PROC_MTD_FIRST.length =
      .err [(decVal ("0").data : Int), (hexVal ("1").data : Int),
        (hexVal ("1").data : Int)] none :=
  ⟨c7_malformed_rejected.1 gpi0 (("bogus").data) 5 (Or.inl (by decide)),
   c7_malformed_rejected.2.1 PROC_MTD_FIRST recLong [] (by decide) (by decide),
   c7_malformed_rejected.2.2 PROC_MTD_FIRST (("0").data) (("1").data) (("1").data)
     (("abc").data) (by decide) (by decide) (by decide) (by decide) (by decide)
     (by decide) (by decide)⟩

/-- C8: `legacy_get_dev_info2` scans the whole listing collecting the lines
whose C-string name equals the requested name: no match fails (ENODEV, "not
found"), a unique match delegates to the by-number assembly with that line's
device number, and two or more matches fail as a name collision. -/
theorem c8_get_dev_info2_name_resolution (recs : List ProcLine)
    (hwf : ∀ L ∈ recs, wfLine L) (qname : List Char) (g : ProcParseInfo)
    (fuel : Nat) (hfuel : recs.length < fuel) :
    (recs.filter (fun M => decide (M.name = cstr qname)) = [] →
      legacy_get_dev_info2 qname g (renderListing recs)
        (renderListing recs).length fuel = some .notFound) ∧
    (∀ M, recs.filter (fun M2 => decide (M2.name = cstr qname)) = [M] →
      legacy_get_dev_info2 qname g (renderListing recs)
        (renderListing recs).length fuel = some (.delegate (lineNum M))) ∧
    (2 ≤ (recs.filter (fun M => decide (M.name = cstr qname))).length →
      legacy_get_dev_info2 qname g (renderListing recs)
        (renderListing recs).length fuel = some .ambiguous) := by
  have hrun : legacy_get_dev_info2 qname g (renderListing recs)
      (renderListing recs).length fuel =
      some (info2_expected (-1)
        (recs.filter (fun M => decide (M.name = cstr qname)))) := by
    unfold legacy_get_dev_info2
    rw [proc_parse_start_render]
    show info2_loop qname (-1) fuel { g with buf := renderListing recs, data_size := (renderListing recs).length, next := PROC_MTD_FIRST_LEN } = _
    exact info2_loop_render recs PROC_MTD_FIRST _ qname (-1) fuel hwf rfl rfl rfl
      hfuel
  refine ⟨?_, ?_, ?_⟩
  · intro h0
    rw [hrun, h0]
    rfl
  · intro M hM
    rw [hrun, hM]
    show some (if (-1 : Int) < 0 then Info2Result.delegate (lineNum M)
      else Info2Result.ambiguous) = _
    rw [if_pos (by norm_num)]
  · intro h2
    rw [hrun]
    rcases hms : recs.filter (fun M => decide (M.name = cstr qname))
      with _ | ⟨a, _ | ⟨b, t⟩⟩
    · rw [hms] at h2; simp at h2
    · rw [hms] at h2; simp at h2
    · rw [hms]
      rfl

/-- Witness for C8 at a listing with one matching line. -/
theorem c8_get_dev_info2_name_resolution_witness :
    legacy_get_dev_info2 (("rootfs").data) gpi0 (renderListing [rec0])
        (renderListing [rec0]).length 2 = some (.delegate (lineNum rec0)) :=
  (c8_get_dev_info2_name_resolution [rec0] (by decide) (("rootfs").data) gpi0 2
    (by decide)).2.1 rec0 (by decide)

/-- C9: the optional erase-correction-layout probe never decides the fate of
descriptor assembly — the C return value is unchanged under any change to the
probe's answers; when the probe reports the feature unsupported, a successful
descriptor carries zero out-of-band-available bytes; and when the probe
succeeds, the descriptor's out-of-band-available field is the reported value
if positive and zero otherwise. -/
theorem c9_probe_is_optional_enrichment :
    (∀ (env : SysEnv) (po pf pc : Bool) (e : EccResult) (g_mtd : MtdDevInfo)
        (g_pi : ProcParseInfo) (alloc : List Char) (ds fuel : Nat),
      (legacy_get_dev_info { env with probe_open_ok := po, probe_fstat_ok := pf, probe_is_chr := pc, ecc := e } g_mtd g_pi alloc ds fuel).map
        DevOutcome.ret =
      (legacy_get_dev_info env g_mtd g_pi alloc ds fuel).map DevOutcome.ret) ∧
    (∀ (env : SysEnv) (f : IoctlFail) (g_mtd : MtdDevInfo) (g_pi : ProcParseInfo)
        (alloc : List Char) (ds fuel : Nat) (o : DevOutcome),
      env.ecc = .fail f →
      legacy_get_dev_info env g_mtd g_pi alloc ds fuel = some o → o.ret = 0 →
      o.mtd.oobavail = 0) ∧
    (∀ (env : SysEnv) (v : Nat) (g_mtd : MtdDevInfo) (g_pi : ProcParseInfo)
        (alloc : List Char) (ds fuel : Nat) (o : DevOutcome),
      env.probe_open_ok = true → env.probe_fstat_ok = true →
      env.probe_is_chr = true → env.ecc = .ok v →
      legacy_get_dev_info env g_mtd g_pi alloc ds fuel = some o → o.ret = 0 →
      o.mtd.oobavail = if 0 < toInt32 v then toInt32 v else 0) := by
  refine ⟨?_, ?_, ?_⟩
  · intro env po pf pc e g_mtd g_pi alloc ds fuel
    unfold legacy_get_dev_info
    rw [geometry_phase_probe_irrel]
    cases hg : geometry_phase env g_mtd with
    | error em => simp only [hg]
    | ok m =>
      simp only [hg]
      cases hp : proc_parse_start g_pi alloc ds with
      | none =>
        simp only [hp]
        rfl
      | some pi =>
        simp only [hp]
        exact name_loop_ret_congr
          { m with oobavail := if 0 < legacy_get_mtd_oobavail { env with probe_open_ok := po, probe_fstat_ok := pf, probe_is_chr := pc, ecc := e } then legacy_get_mtd_oobavail { env with probe_open_ok := po, probe_fstat_ok := pf, probe_is_chr := pc, ecc := e } else 0 }
          { m with oobavail := if 0 < legacy_get_mtd_oobavail env then legacy_get_mtd_oobavail env else 0 }
          rfl fuel pi
  · intro env f g_mtd g_pi alloc ds fuel o hecc h hr
    unfold legacy_get_dev_info at h
    cases hg : geometry_phase env g_mtd with
    | error em =>
      rw [hg] at h
      simp only [Option.some.injEq] at h
      obtain rfl := h
      simp at hr
    | ok m =>
      rw [hg] at h
      cases hp : proc_parse_start g_pi alloc ds with
      | none =>
        simp only [hp] at h
        simp only [Option.some.injEq] at h
        obtain rfl := h
        simp at hr
      | some pi =>
        simp only [hp] at h
        have hoob := (name_loop_some _ fuel pi o h).2.1
        rw [hoob]
        simp [legacy_get_mtd_oobavail_fail env f hecc]
  · intro env v g_mtd g_pi alloc ds fuel o hpo hpf hpc hecc h hr
    unfold legacy_get_dev_info at h
    cases hg : geometry_phase env g_mtd with
    | error em =>
      rw [hg] at h
      simp only [Option.some.injEq] at h
      obtain rfl := h
      simp at hr
    | ok m =>
      rw [hg] at h
      cases hp : proc_parse_start g_pi alloc ds with
      | none =>
        simp only [hp] at h
        simp only [Option.some.injEq] at h
        obtain rfl := h
        simp at hr
      | some pi =>
        simp only [hp] at h
        have hoob := (name_loop_some _ fuel pi o h).2.1
        rw [hoob]
        simp [legacy_get_mtd_oobavail_ok env v hpo hpf hpc hecc]

/-- Witness for C9 at the concrete unsupported-probe descriptor query. -/
theorem c9_probe_is_optional_enrichment_witness : out0.mtd.oobavail = 0 :=
  c9_probe_is_optional_enrichment.2.1 env0 .eopnotsupp zeroDevInfo gpi0 listing0
    listing0.length 2 out0 rfl (by decide) rfl
